import Mathlib

/-!
Verification of the GXT editor's patch-table codec (`src/whm_table.py`) and of
the plain-text interchange loader and key validators (`src/main.py`).

Modelling conventions:
* Bytes are `Nat` values (file contents are lists of bytes `< 256`); machine
  `uint32` packing/unpacking is explicit arithmetic `% 2^32`.
* Python `str` values that only flow through the interchange layer are Lean
  `String`s; decoded byte payloads are lists of Unicode code points
  (`List Nat`), produced by the encoding resolver.
* Fallible Python operations (`struct.unpack_from`, list indexing,
  `struct.pack` range checks, `int(s, 16)`, `dict[...]` lookup) are
  `Option`-valued; `none` is the Python exception.
* Python whitespace handling (`str.strip`, `int`'s surrounding whitespace) is
  modelled over the ASCII whitespace characters.
-/

namespace GXT

/-- Code points of a Lean string; bridges Lean `String` texts to the
code-point lists the byte-level codec works with. -/
def strCodes (s : String) : List Nat :=
  s.data.map (fun c => c.toNat)

/-- ASCII whitespace, the characters Python's `str.strip()` removes that can
occur in the inputs modelled here. -/
def isPyWs (c : Char) : Bool :=
  c == ' ' || c == '\t' || c == '\n' || c == '\x0d' || c == '\x0b' || c == '\x0c'

/-- Python `line.strip()`. -/
def pyStrip (s : String) : String :=
  ⟨((s.data.dropWhile isPyWs).reverse.dropWhile isPyWs).reverse⟩

/-- Python `'=' in line`. -/
def hasEq (s : String) : Bool :=
  s.data.contains '='

/-- Python `line.split('=', 1)` under the guard that `'='` occurs: the part
before the first `'='` and the part after it. -/
def splitEq1 (s : String) : String × String :=
  let p := s.data.span (fun c => c != '=')
  (⟨p.1⟩, ⟨p.2.tail⟩)

/-! ## Encoding resolver (`decode_bytes`, whm_table.py lines 21-27) -/

/-- UTF-8 encoding of one Unicode scalar value (Python `str.encode("utf-8")`,
one character). -/
def utf8EncodeChar (c : Nat) : List Nat :=
  if c < 0x80 then [c]
  else if c < 0x800 then [0xC0 + c / 64, 0x80 + c % 64]
  else if c < 0x10000 then [0xE0 + c / 4096, 0x80 + c / 64 % 64, 0x80 + c % 64]
  else [0xF0 + c / 262144, 0x80 + c / 4096 % 64, 0x80 + c / 64 % 64, 0x80 + c % 64]

/-- UTF-8 encoding of a code-point sequence. -/
def utf8Encode : List Nat → List Nat
  | [] => []
  | c :: r => utf8EncodeChar c ++ utf8Encode r

/-- UTF-8 continuation byte. -/
def isCont (b : Nat) : Bool :=
  decide (0x80 ≤ b ∧ b ≤ 0xBF)

/-- Strict UTF-8 decoding as Python's `bytes.decode("utf-8")`: rejects stray
continuation bytes, overlong forms, surrogates and values above `0x10FFFF`.
`none` is Python's `UnicodeDecodeError`. -/
def utf8Decode : List Nat → Option (List Nat)
  | [] => some []
  | b :: rest =>
    if b < 0x80 then (utf8Decode rest).map (fun t => b :: t)
    else if b < 0xC2 then none
    else if b ≤ 0xDF then
      match rest.head? with
      | some c1 =>
        if isCont c1 then
          (utf8Decode rest.tail).map (fun t => ((b - 0xC0) * 64 + (c1 - 0x80)) :: t)
        else none
      | none => none
    else if b ≤ 0xEF then
      match rest.head?, rest.tail.head? with
      | some c1, some c2 =>
        let lo := if b = 0xE0 then 0xA0 else 0x80
        let hi := if b = 0xED then 0x9F else 0xBF
        if decide (lo ≤ c1 ∧ c1 ≤ hi) && isCont c2 then
          (utf8Decode rest.tail.tail).map
            (fun t => ((b - 0xE0) * 4096 + (c1 - 0x80) * 64 + (c2 - 0x80)) :: t)
        else none
      | _, _ => none
    else if b ≤ 0xF4 then
      match rest.head?, rest.tail.head?, rest.tail.tail.head? with
      | some c1, some c2, some c3 =>
        let lo := if b = 0xF0 then 0x90 else 0x80
        let hi := if b = 0xF4 then 0x8F else 0xBF
        if decide (lo ≤ c1 ∧ c1 ≤ hi) && isCont c2 && isCont c3 then
          (utf8Decode rest.tail.tail.tail).map
            (fun t =>
              ((b - 0xF0) * 262144 + (c1 - 0x80) * 4096 + (c2 - 0x80) * 64
                + (c3 - 0x80)) :: t)
        else none
      | _, _, _ => none
    else none
termination_by l => l.length
decreasing_by all_goals (simp [List.length_tail]; try omega)

/-- The Windows-1252 value of one byte: identity outside `0x80..0x9F`, the
published table inside it, `none` on the five unassigned bytes
(`0x81, 0x8D, 0x8F, 0x90, 0x9D`), as Python's `bytes.decode("cp1252")`. -/
def cp1252Byte (b : Nat) : Option Nat :=
  if b = 0x80 then some 0x20AC
  else if b = 0x82 then some 0x201A
  else if b = 0x83 then some 0x0192
  else if b = 0x84 then some 0x201E
  else if b = 0x85 then some 0x2026
  else if b = 0x86 then some 0x2020
  else if b = 0x87 then some 0x2021
  else if b = 0x88 then some 0x02C6
  else if b = 0x89 then some 0x2030
  else if b = 0x8A then some 0x0160
  else if b = 0x8B then some 0x2039
  else if b = 0x8C then some 0x0152
  else if b = 0x8E then some 0x017D
  else if b = 0x91 then some 0x2018
  else if b = 0x92 then some 0x2019
  else if b = 0x93 then some 0x201C
  else if b = 0x94 then some 0x201D
  else if b = 0x95 then some 0x2022
  else if b = 0x96 then some 0x2013
  else if b = 0x97 then some 0x2014
  else if b = 0x98 then some 0x02DC
  else if b = 0x99 then some 0x2122
  else if b = 0x9A then some 0x0161
  else if b = 0x9B then some 0x203A
  else if b = 0x9C then some 0x0153
  else if b = 0x9E then some 0x017E
  else if b = 0x9F then some 0x0178
  else if b = 0x81 ∨ b = 0x8D ∨ b = 0x8F ∨ b = 0x90 ∨ b = 0x9D then none
  else some b

/-- `bytes.decode("cp1252")`. -/
def cp1252Decode : List Nat → Option (List Nat)
  | [] => some []
  | b :: r =>
    match cp1252Byte b with
    | some c => (cp1252Decode r).map (fun t => c :: t)
    | none => none

/-- `bytes.decode("latin1")`: each byte is its own code point; this decode
never fails. -/
def latin1Decode (l : List Nat) : Option (List Nat) :=
  some l

/-- Code point of a lowercase hex digit. -/
def hexDigitChar (n : Nat) : Nat :=
  if n < 10 then 48 + n else 87 + n

/-- Python `bytes.hex()`: the lossless escaped-bytes fallback, as code
points. -/
def hexStr (l : List Nat) : List Nat :=
  match l with
  | [] => []
  | b :: r => hexDigitChar (b / 16) :: hexDigitChar (b % 16) :: hexStr r

/-- `decode_bytes` (whm_table.py lines 21-27): try `utf-8`, `cp1252`,
`latin1` in order, return the first success; if all fail, return
`bts.hex()`. -/
def decode_bytes (bts : List Nat) : List Nat :=
  match utf8Decode bts with
  | some s => s
  | none =>
    match cp1252Decode bts with
    | some s => s
    | none =>
      match latin1Decode bts with
      | some s => s
      | none => hexStr bts

/-- The ordered list of decode attempts `("utf-8", "cp1252", "latin1")` the
loop of `decode_bytes` runs through. -/
def encAttempts : List (List Nat → Option (List Nat)) :=
  [utf8Decode, cp1252Decode, latin1Decode]

/-! ## Patch-table binary codec (whm_table.py lines 7-64) -/

/-- Little-endian bytes of a `uint32`, `struct.pack("<I", n)` for an
in-range value. -/
def packU32 (n : Nat) : List Nat :=
  [n % 256, n / 256 % 256, n / 65536 % 256, n / 16777216 % 256]

/-- `struct.pack("<I", n)` for a Python `int`: `none` (a `struct.error`)
outside `0 ≤ n < 2^32`. -/
def packIntU32 (n : Int) : Option (List Nat) :=
  if 0 ≤ n ∧ n < 4294967296 then some (packU32 n.toNat) else none

/-- `struct.pack("<I", n)` for a nonnegative count or offset. -/
def packNatU32 (n : Nat) : Option (List Nat) :=
  if n < 4294967296 then some (packU32 n) else none

/-- `read_u32` (whm_table.py lines 7-8): `struct.unpack_from("<I", b, off)`
and the advanced cursor; `none` when fewer than 4 bytes remain. -/
def read_u32 (b : List Nat) (off : Nat) : Option (Nat × Nat) :=
  match b.drop off with
  | b0 :: b1 :: b2 :: b3 :: _ =>
    some (b0 + 256 * b1 + 65536 * b2 + 16777216 * b3, off + 4)
  | _ => none

/-- The entry loop of `read_entries`: `count` iterations of
`struct.unpack_from("<II", data, off)` (two `uint32` reads per entry),
returning the `(hash, offset)` pairs and the final cursor. -/
def readEntriesLoop (data : List Nat) (off : Nat) : Nat → Option (List (Nat × Nat) × Nat)
  | 0 => some ([], off)
  | n + 1 =>
    match read_u32 data off, read_u32 data (off + 4) with
    | some (hv, _), some (ov, _) =>
      (readEntriesLoop data (off + 8) n).map (fun p => ((hv, ov) :: p.1, p.2))
    | _, _ => none

/-- `read_entries` (whm_table.py lines 10-19): header count, the entry
array, then the blob size; returns `(entries, blob_start, blob_size)`. -/
def read_entries (data : List Nat) : Option (List (Nat × Nat) × Nat × Nat) := do
  let (count, off) ← read_u32 data 0
  let (entries, off2) ← readEntriesLoop data off count
  let (blob_size, _) ← read_u32 data off2
  some (entries, off2 + 4, blob_size)

/-- The scan `while j < blob_size and blob[j] != 0: j += 1` of
`parse_whm_table`, walking the suffix of the blob from index `j`; `none` is
Python's `IndexError` when `blob[j]` is read past the end of the (possibly
truncated) blob slice. -/
def scanZeroGo (blob_size j : Nat) : List Nat → Option Nat
  | [] => if j < blob_size then none else some j
  | b :: r =>
    if j < blob_size then
      if b ≠ 0 then scanZeroGo blob_size (j + 1) r else some j
    else some j

/-- The scan of `parse_whm_table` from absolute index `j`. -/
def scanZero (blob : List Nat) (blob_size : Nat) (j : Nat) : Option Nat :=
  scanZeroGo blob_size j (blob.drop j)

/-- One step of the scan, phrased on the whole blob: check `j < blob_size`,
then read `blob[j]` (an `IndexError` when absent), then either stop at a NUL
or advance. -/
theorem scanZero_unfold_eq (blob : List Nat) (bs j : Nat) :
    scanZero blob bs j =
      if j < bs then
        match blob[j]? with
        | none => none
        | some b => if b ≠ 0 then scanZero blob bs (j + 1) else some j
      else some j := by
  cases hdrop : blob.drop j with
  | nil =>
    have hget : blob[j]? = none := by
      have h0 := List.getElem?_drop blob j 0
      rw [hdrop] at h0
      simpa using h0.symm
    rw [scanZero, hdrop, hget]
    rfl
  | cons b r =>
    have hget : blob[j]? = some b := by
      have h0 := List.getElem?_drop blob j 0
      rw [hdrop] at h0
      simpa using h0.symm
    have htail : blob.drop (j + 1) = r := by
      rw [← List.tail_drop, hdrop]
      rfl
    rw [scanZero, hdrop, hget]
    rw [scanZeroGo]
    by_cases hj : j < bs
    · rw [if_pos hj, if_pos hj]
      show (if b ≠ 0 then scanZeroGo bs (j + 1) r else some j) =
        if b ≠ 0 then scanZero blob bs (j + 1) else some j
      by_cases hb : b ≠ 0
      · rw [if_pos hb, if_pos hb, scanZero, htail]
      · rw [if_neg hb, if_neg hb]
    · rw [if_neg hj, if_neg hj]

/-- The body of `parse_whm_table`'s entry loop (whm_table.py lines 35-46):
slice the blob from a valid offset up to the next NUL, or take `b''` for an
out-of-range offset, then decode, with `"[BINARY]"` for an empty slice. -/
def parseEntry (blob : List Nat) (blob_size : Nat) (e : Nat × Nat) :
    Option (Nat × List Nat) := do
  let bts ←
    if e.2 < blob_size then do
      let j ← scanZero blob blob_size e.2
      pure ((blob.drop e.2).take (j - e.2))
    else pure []
  pure (e.1, if bts = [] then strCodes "[BINARY]" else decode_bytes bts)

/-- The entry loop of `parse_whm_table` over the whole entry list. -/
def parseEntryList (blob : List Nat) (blob_size : Nat) :
    List (Nat × Nat) → Option (List (Nat × List Nat))
  | [] => some []
  | e :: r => do
    let v ← parseEntry blob blob_size e
    let rest ← parseEntryList blob blob_size r
    pure (v :: rest)

/-- `parse_whm_table` (whm_table.py lines 29-47) on the file's bytes:
read the header, slice the blob (Python slicing clamps at the end of the
data), and decode every entry. -/
def parse_whm_table (data : List Nat) : Option (List (Nat × List Nat)) := do
  let (entries, blob_start, blob_size) ← read_entries data
  let blob := (data.drop blob_start).take blob_size
  parseEntryList blob blob_size entries

/-- The blob-building loop of `dump_whm_table` (whm_table.py lines 50-56):
UTF-8 encode each text, NUL-terminate, concatenate, recording each entry's
starting offset (`len(blob)` before the extend); `base` is the length of the
blob built so far. -/
def buildBlobAux (base : Nat) : List String → List Nat × List Nat
  | [] => ([], [])
  | t :: r =>
    let e := utf8Encode (strCodes t) ++ [0]
    let p := buildBlobAux (base + e.length) r
    (e ++ p.1, base :: p.2)

/-- The header loop of `dump_whm_table` (lines 60-61):
`struct.pack(ENTRY_STRUCT, item["hash"], off)` over the zipped items and
offsets. -/
def dumpPairs : List (Int × Nat) → Option (List Nat)
  | [] => some []
  | (h, o) :: r => do
    let hb ← packIntU32 h
    let ob ← packNatU32 o
    let rest ← dumpPairs r
    pure (hb ++ ob ++ rest)

/-- `dump_whm_table` (whm_table.py lines 49-64): build the blob and the
offsets, then emit count, the `(hash, offset)` pairs in input order, the
blob size and the blob. Items are `(hash, text)` with a Python-int hash.
`none` is the `struct.error` a hash, count or size outside `uint32`
raises. -/
def dump_whm_table (items : List (Int × String)) : Option (List Nat) := do
  let bp := buildBlobAux 0 (items.map (fun it => it.2))
  let cnt ← packNatU32 items.length
  let pairs ← dumpPairs ((items.map (fun it => it.1)).zip bp.2)
  let sz ← packNatU32 bp.1.length
  pure (cnt ++ pairs ++ sz ++ bp.1)

/-! ## Patch-table text loader (`load_txt_items`, whm_table.py lines 66-85) -/

/-- Value of one hex digit, `none` otherwise. -/
def hexDigitVal (c : Char) : Option Nat :=
  if decide ('0' ≤ c ∧ c ≤ '9') then some (c.toNat - 48)
  else if decide ('a' ≤ c ∧ c ≤ 'f') then some (c.toNat - 87)
  else if decide ('A' ≤ c ∧ c ≤ 'F') then some (c.toNat - 55)
  else none

/-- The digit run of Python's `int(s, 16)`: hex digits with single
underscores allowed between digits (`prevDigit` tracks whether an underscore
may come next, `hasDigit` that at least one digit was seen). -/
def hexDigitsVal (acc : Nat) (prevDigit hasDigit : Bool) : List Char → Option Nat
  | [] => if hasDigit && prevDigit then some acc else none
  | c :: r =>
    if c = '_' then
      if prevDigit then hexDigitsVal acc false hasDigit r else none
    else
      match hexDigitVal c with
      | some d => hexDigitsVal (16 * acc + d) true true r
      | none => none

/-- Python's `int(s, 16)`: surrounding whitespace, an optional sign, an
optional `0x`/`0X` prefix (after which one underscore may precede the first
digit), then at least one hex digit; `none` is the `ValueError`. -/
def hexIntParse (s : String) : Option Int :=
  let l := ((s.data.dropWhile isPyWs).reverse.dropWhile isPyWs).reverse
  let sl : Int × List Char :=
    match l with
    | '+' :: r => (1, r)
    | '-' :: r => (-1, r)
    | _ => (1, l)
  let pl : Bool × List Char :=
    match sl.2 with
    | '0' :: 'x' :: r => (true, r)
    | '0' :: 'X' :: r => (true, r)
    | _ => (false, sl.2)
  match hexDigitsVal 0 pl.1 false pl.2 with
  | some v => some (sl.1 * v)
  | none => none

/-- `load_txt_items` (whm_table.py lines 66-85) over the file's lines: strip
each line, skip blank lines, split at the first `'='`, parse the hash part
with `int(hash_part, 16)`; a line whose hash does not parse, or without
`'='`, only prints a warning and is skipped. -/
def load_txt_items (lines : List String) : List (Int × String) :=
  lines.filterMap (fun line =>
    let l := pyStrip line
    if l = "" then none
    else if hasEq l then
      match hexIntParse (splitEq1 l).1 with
      | some v => some (v, (splitEq1 l).2)
      | none => none
    else none)

/-! ## Key validation (`_validate_key_static`, main.py lines 35-67) -/

/-- One character of the regex class `[0-9a-zA-Z_]`. -/
def isWordChar (c : Char) : Bool :=
  decide ('0' ≤ c ∧ c ≤ '9') || decide ('a' ≤ c ∧ c ≤ 'z')
    || decide ('A' ≤ c ∧ c ≤ 'Z') || c == '_'

/-- One character of the regex class `[0-9A-Z_]`. -/
def isUpperWordChar (c : Char) : Bool :=
  decide ('0' ≤ c ∧ c ≤ '9') || decide ('A' ≤ c ∧ c ≤ 'Z') || c == '_'

/-- One character of the regex class `[0-9a-fA-F]`. -/
def isHexChar (c : Char) : Bool :=
  decide ('0' ≤ c ∧ c ≤ '9') || decide ('a' ≤ c ∧ c ≤ 'f')
    || decide ('A' ≤ c ∧ c ≤ 'F')

/-- `re.fullmatch(r'0[xX][0-9a-fA-F]{8}', key)`. -/
def is0x8Hex (key : String) : Bool :=
  match key.data with
  | '0' :: c :: rest => (c == 'x' || c == 'X') && rest.length == 8 && rest.all isHexChar
  | _ => false

/-- `key.lower().startswith('0x')`: the first character is `'0'` and the
second lowercases to `'x'`. -/
def startsWith0x (key : String) : Bool :=
  match key.data with
  | '0' :: c :: _ => c == 'x' || c == 'X'
  | _ => false

/-- `_get_key_validation_message` (main.py lines 35-42). -/
def getKeyValidationMessage (version fileType : String) : String :=
  if fileType = "dat" then "DAT文件键名必须是0x或0X开头的8位十六进制数 (例如: 0x12345678)"
  else if version = "VC" then "VC键名必须是1-7位数字、大写字母或下划线"
  else if version = "SA" then "SA键名必须是1-8位十六进制数"
  else if version = "III" then "III键名必须是1-7位数字、字母或下划线"
  else if version = "IV" then "IV键名必须是字母数字下划线组成的明文，或是0x/0X开头的8位十六进制数"
  else "键名格式不正确"

/-- `_validate_key_static` (main.py lines 44-60): the per-dialect key
pattern. `re.fullmatch` of a class with `{1,7}` or `{1,8}` is the length
bound plus the per-character class; the versions are `'VC'`, `'SA'`,
`'III'`, `'IV'`, anything else validates. -/
def validateKeyStatic (key version fileType : String) : Bool :=
  if fileType = "dat" then is0x8Hex key
  else if version = "VC" then
    decide (1 ≤ key.data.length) && decide (key.data.length ≤ 7)
      && key.data.all isUpperWordChar
  else if version = "SA" then
    decide (1 ≤ key.data.length) && decide (key.data.length ≤ 8)
      && key.data.all isHexChar
  else if version = "III" then
    decide (1 ≤ key.data.length) && decide (key.data.length ≤ 7)
      && key.data.all isWordChar
  else if version = "IV" then
    if startsWith0x key then is0x8Hex key
    else !key.data.isEmpty && key.data.all isWordChar
  else true

/-! ## Interchange text loader (`_load_standard_txt`, main.py lines 2445-2474) -/

/-- The in-progress state of `_load_standard_txt`: the table-of-tables under
construction (an insertion-ordered association list, as a Python dict), the
accumulated `(key, line_number, file_path, message)` error tuples, and the
current table name (`None` before any table header). -/
structure LoadState where
  data : List (String × List (String × String))
  invalid : List (String × Nat × String × String)
  current : Option String
deriving DecidableEq, Repr

/-- Python `dict` assignment `m[k] = v` on an association list: overwrite in
place, or append at the end. -/
def assocSet (k : String) (v : β) : List (String × β) → List (String × β)
  | [] => [(k, v)]
  | (k', v') :: r => if k' = k then (k, v) :: r else (k', v') :: assocSet k v r

/-- Python `line.startswith('[') and line.endswith(']')`. -/
def lineIsHeader (l : String) : Bool :=
  l.data.head? == some '[' && l.data.getLast? == some ']'

/-- Python `line[1:-1]`. -/
def lineInner (l : String) : String :=
  ⟨l.data.tail.dropLast⟩

/-- One iteration of the line loop of `_load_standard_txt` (main.py lines
2454-2472): strip, skip blanks, open a table on a header line, validate and
record a `key=value` line, silently skip anything else. `none` is the
`KeyError` raised when a `key=value` line is stored under a current table
name absent from the dict (an empty-named header never creates its
table). -/
def processLine (ht : Bool) (version fp : String) (st : LoadState) (lineNum : Nat)
    (rawLine : String) : Option LoadState :=
  let line := pyStrip rawLine
  if line = "" then some st
  else if ht && lineIsHeader line then
    let t := pyStrip (lineInner line)
    some { st with
      current := some t
      data := if t ≠ "" ∧ (st.data.lookup t).isNone then st.data ++ [(t, [])] else st.data }
  else
    match st.current with
    | some ct =>
      if hasEq line then
        let key := pyStrip (splitEq1 line).1
        if validateKeyStatic key version "gxt" = false then
          some { st with
            invalid := st.invalid ++ [(key, lineNum, fp, getKeyValidationMessage version "gxt")] }
        else if key ≠ "" then
          match st.data.lookup ct with
          | some tbl => some { st with data := assocSet ct (assocSet key (pyStrip (splitEq1 line).2) tbl) st.data }
          | none => none
        else some st
      else some st
    | none => some st

/-- The line loop of `_load_standard_txt` over one file, with 1-indexed line
numbers starting at `lineNum`. -/
def loadLinesFrom (ht : Bool) (version fp : String) (st : LoadState) (lineNum : Nat) :
    List String → Option LoadState
  | [] => some st
  | raw :: rest => do
    let st' ← processLine ht version fp st lineNum raw
    loadLinesFrom ht version fp st' (lineNum + 1) rest

/-- `_load_standard_txt` (main.py lines 2445-2474) over a batch of files,
each given as `(path, lines)`: returns `(data, invalid_keys)`, or `none`
when the loop raises. -/
def loadStandardTxt (ht : Bool) (version : String) (files : List (String × List String)) :
    Option (List (String × List (String × String)) × List (String × Nat × String × String)) := do
  let st0 : LoadState :=
    { data := if ht then [] else [("MAIN", [])]
      invalid := []
      current := if ht then none else some "MAIN" }
  let fin ← files.foldlM (fun st f => loadLinesFrom ht version f.1 st 1 f.2) st0
  pure (fin.data, fin.invalid)

/-- The error list of a `_load_standard_txt` result, `[]` when it raised. -/
def resErrs (r : Option (List (String × List (String × String)) × List (String × Nat × String × String))) :
    List (String × Nat × String × String) :=
  (r.map (fun p => p.2)).getD []

/-- The `MAIN` table of a `_load_standard_txt` result. -/
def resMain (r : Option (List (String × List (String × String)) × List (String × Nat × String × String))) :
    List (String × String) :=
  match r with
  | some (d, _) => (d.lookup "MAIN").getD []
  | none => []

/-! ## Lemmas: UTF-8 round trip -/

/-- A Unicode scalar value: what a `Char` may hold and what strict UTF-8
encodes. -/
def IsScalar (c : Nat) : Prop :=
  c < 0x110000 ∧ ¬(0xD800 ≤ c ∧ c ≤ 0xDFFF)

theorem utf8EncodeChar_decode (c : Nat) (tail : List Nat) (hs : IsScalar c) :
    utf8Decode (utf8EncodeChar c ++ tail) = (utf8Decode tail).map (fun t => c :: t) := by
  obtain ⟨hlt, hsur⟩ := hs
  by_cases h1 : c < 0x80
  · rw [show utf8EncodeChar c = [c] by rw [utf8EncodeChar, if_pos h1], List.cons_append,
      List.nil_append, utf8Decode.eq_def]
    simp only [if_pos h1]
  · by_cases h2 : c < 0x800
    · rw [show utf8EncodeChar c = [0xC0 + c / 64, 0x80 + c % 64] by
        rw [utf8EncodeChar, if_neg h1, if_pos h2], List.cons_append, List.cons_append,
        List.nil_append, utf8Decode.eq_def]
      have hb1 : ¬(0xC0 + c / 64 < 0x80) := by omega
      have hb2 : ¬(0xC0 + c / 64 < 0xC2) := by omega
      have hb3 : 0xC0 + c / 64 ≤ 0xDF := by omega
      have hc1 : isCont (0x80 + c % 64) = true := by
        simp only [isCont, decide_eq_true_eq]; omega
      simp only [if_neg hb1, if_neg hb2, if_pos hb3, List.head?_cons, List.tail_cons, hc1,
        if_true]
      have hv : (0xC0 + c / 64 - 0xC0) * 64 + (0x80 + c % 64 - 0x80) = c := by omega
      rw [hv]
    · by_cases h3 : c < 0x10000
      · rw [show utf8EncodeChar c = [0xE0 + c / 4096, 0x80 + c / 64 % 64, 0x80 + c % 64] by
          rw [utf8EncodeChar, if_neg h1, if_neg h2, if_pos h3], List.cons_append,
          List.cons_append, List.cons_append, List.nil_append, utf8Decode.eq_def]
        have hb1 : ¬(0xE0 + c / 4096 < 0x80) := by omega
        have hb2 : ¬(0xE0 + c / 4096 < 0xC2) := by omega
        have hb3 : ¬(0xE0 + c / 4096 ≤ 0xDF) := by omega
        have hb4 : 0xE0 + c / 4096 ≤ 0xEF := by omega
        have hcond : (decide ((if 0xE0 + c / 4096 = 0xE0 then 0xA0 else 0x80) ≤ 0x80 + c / 64 % 64 ∧
            0x80 + c / 64 % 64 ≤ if 0xE0 + c / 4096 = 0xED then 0x9F else 0xBF) &&
            isCont (0x80 + c % 64)) = true := by
          have hc2 : isCont (0x80 + c % 64) = true := by
            simp only [isCont, decide_eq_true_eq]; omega
          rw [hc2, Bool.and_true, decide_eq_true_eq]
          by_cases he0 : 0xE0 + c / 4096 = 0xE0
          · rw [if_pos he0, if_neg (by omega : ¬(0xE0 + c / 4096 = 0xED))]
            omega
          · rw [if_neg he0]
            by_cases hed : 0xE0 + c / 4096 = 0xED
            · rw [if_pos hed]; omega
            · rw [if_neg hed]; omega
        simp only [if_neg hb1, if_neg hb2, if_neg hb3, if_pos hb4, List.head?_cons,
          List.tail_cons, hcond, if_true]
        have hv : (0xE0 + c / 4096 - 0xE0) * 4096 + (0x80 + c / 64 % 64 - 0x80) * 64 +
            (0x80 + c % 64 - 0x80) = c := by omega
        rw [hv]
      · rw [show utf8EncodeChar c =
            [0xF0 + c / 262144, 0x80 + c / 4096 % 64, 0x80 + c / 64 % 64, 0x80 + c % 64] by
          rw [utf8EncodeChar, if_neg h1, if_neg h2, if_neg h3], List.cons_append,
          List.cons_append, List.cons_append, List.cons_append, List.nil_append,
          utf8Decode.eq_def]
        have hb1 : ¬(0xF0 + c / 262144 < 0x80) := by omega
        have hb2 : ¬(0xF0 + c / 262144 < 0xC2) := by omega
        have hb3 : ¬(0xF0 + c / 262144 ≤ 0xDF) := by omega
        have hb4 : ¬(0xF0 + c / 262144 ≤ 0xEF) := by omega
        have hb5 : 0xF0 + c / 262144 ≤ 0xF4 := by omega
        have hcond : (decide ((if 0xF0 + c / 262144 = 0xF0 then 0x90 else 0x80) ≤
            0x80 + c / 4096 % 64 ∧ 0x80 + c / 4096 % 64 ≤
            if 0xF0 + c / 262144 = 0xF4 then 0x8F else 0xBF) &&
            isCont (0x80 + c / 64 % 64) && isCont (0x80 + c % 64)) = true := by
          have hc2 : isCont (0x80 + c / 64 % 64) = true := by
            simp only [isCont, decide_eq_true_eq]; omega
          have hc3 : isCont (0x80 + c % 64) = true := by
            simp only [isCont, decide_eq_true_eq]; omega
          rw [hc2, hc3, Bool.and_true, Bool.and_true, decide_eq_true_eq]
          by_cases hf0 : 0xF0 + c / 262144 = 0xF0
          · rw [if_pos hf0, if_neg (by omega : ¬(0xF0 + c / 262144 = 0xF4))]
            omega
          · rw [if_neg hf0]
            by_cases hf4 : 0xF0 + c / 262144 = 0xF4
            · rw [if_pos hf4]; omega
            · rw [if_neg hf4]; omega
        simp only [if_neg hb1, if_neg hb2, if_neg hb3, if_neg hb4, if_pos hb5, List.head?_cons,
          List.tail_cons, hcond, if_true]
        have hv : (0xF0 + c / 262144 - 0xF0) * 262144 + (0x80 + c / 4096 % 64 - 0x80) * 4096 +
            (0x80 + c / 64 % 64 - 0x80) * 64 + (0x80 + c % 64 - 0x80) = c := by omega
        rw [hv]

theorem utf8Encode_decode (cs : List Nat) (hs : ∀ c ∈ cs, IsScalar c) :
    utf8Decode (utf8Encode cs) = some cs := by
  induction cs with
  | nil => simp [utf8Encode, utf8Decode]
  | cons c r ih =>
    rw [utf8Encode, utf8EncodeChar_decode c _ (hs c (by simp))]
    rw [ih (fun x hx => hs x (by simp [hx]))]
    rfl

/-- Every code point of a Lean string is a Unicode scalar value. -/
theorem strCodes_scalar (s : String) : ∀ c ∈ strCodes s, IsScalar c := by
  intro c hc
  simp only [strCodes, List.mem_map] at hc
  obtain ⟨ch, _, rfl⟩ := hc
  have hv := ch.valid
  rcases hv with h | h
  · constructor
    · have : ch.toNat < 0xD800 := h
      omega
    · have : ch.toNat < 0xD800 := h
      omega
  · obtain ⟨hlo, hhi⟩ := h
    constructor
    · exact hhi
    · have : 0xDFFF < ch.toNat := hlo
      omega

/-! ## Lemmas: encoded texts have no NUL byte and are nonempty -/

theorem utf8EncodeChar_ne_nil (c : Nat) : utf8EncodeChar c ≠ [] := by
  rw [utf8EncodeChar]
  split_ifs <;> simp

theorem utf8Encode_ne_nil (cs : List Nat) (h : cs ≠ []) : utf8Encode cs ≠ [] := by
  cases cs with
  | nil => exact absurd rfl h
  | cons c r =>
    rw [utf8Encode]
    intro he
    exact utf8EncodeChar_ne_nil c (List.append_eq_nil.mp he).1

theorem utf8EncodeChar_ne_zero (c : Nat) (hc : c ≠ 0) :
    ∀ b ∈ utf8EncodeChar c, b ≠ 0 := by
  intro b hb
  rw [utf8EncodeChar] at hb
  split_ifs at hb <;> simp at hb <;> omega

theorem utf8Encode_ne_zero (cs : List Nat) (hc : ∀ c ∈ cs, c ≠ 0) :
    ∀ b ∈ utf8Encode cs, b ≠ 0 := by
  induction cs with
  | nil => intro b hb; rw [utf8Encode] at hb; exact absurd hb (List.not_mem_nil b)
  | cons c r ih =>
    intro b hb
    rw [utf8Encode] at hb
    rcases List.mem_append.mp hb with h | h
    · exact utf8EncodeChar_ne_zero c (hc c (by simp)) b h
    · exact ih (fun x hx => hc x (by simp [hx])) b h

theorem strCodes_ne_nil (s : String) (h : s ≠ "") : strCodes s ≠ [] := by
  intro he
  apply h
  rw [strCodes] at he
  have hd : s.data = [] := List.map_eq_nil_iff.mp he
  cases s
  simp_all

/-! ## Lemmas: uint32 packing and the header reads -/

theorem packU32_length (n : Nat) : (packU32 n).length = 4 := rfl

theorem read_u32_at (pre : List Nat) (n : Nat) (rest : List Nat) (h : n < 4294967296) :
    read_u32 (pre ++ (packU32 n ++ rest)) pre.length = some (n, pre.length + 4) := by
  rw [read_u32, List.drop_left, packU32]
  simp only [List.cons_append]
  have hv : n % 256 + 256 * (n / 256 % 256) + 65536 * (n / 65536 % 256) +
      16777216 * (n / 16777216 % 256) = n := by omega
  rw [hv]

/-- The byte encoding of the `(hash, offset)` entry array. -/
def encPairs : List (Nat × Nat) → List Nat
  | [] => []
  | (h, o) :: r => packU32 h ++ (packU32 o ++ encPairs r)

theorem encPairs_length (ps : List (Nat × Nat)) : (encPairs ps).length = 8 * ps.length := by
  induction ps with
  | nil => rfl
  | cons p r ih =>
    obtain ⟨h, o⟩ := p
    rw [encPairs]
    simp [packU32_length, ih]
    omega

theorem readEntriesLoop_at (ps : List (Nat × Nat)) (pre rest : List Nat)
    (hps : ∀ p ∈ ps, p.1 < 4294967296 ∧ p.2 < 4294967296) :
    readEntriesLoop (pre ++ (encPairs ps ++ rest)) pre.length ps.length =
      some (ps, pre.length + 8 * ps.length) := by
  induction ps generalizing pre with
  | nil => simp [encPairs, readEntriesLoop]
  | cons p r ih =>
    obtain ⟨h, o⟩ := p
    have hh := (hps (h, o) (by simp)).1
    have ho := (hps (h, o) (by simp)).2
    rw [encPairs, List.length_cons]
    rw [show ∀ d off2, readEntriesLoop d off2 (r.length + 1) =
      match read_u32 d off2, read_u32 d (off2 + 4) with
      | some (hv, _), some (ov, _) =>
        (readEntriesLoop d (off2 + 8) r.length).map (fun q => ((hv, ov) :: q.1, q.2))
      | _, _ => none from fun d off2 => rfl]
    have e1 : pre ++ ((packU32 h ++ (packU32 o ++ encPairs r)) ++ rest) =
        pre ++ (packU32 h ++ (packU32 o ++ (encPairs r ++ rest))) := by
      simp [List.append_assoc]
    rw [e1, read_u32_at pre h _ hh]
    have e2 : pre ++ (packU32 h ++ (packU32 o ++ (encPairs r ++ rest))) =
        (pre ++ packU32 h) ++ (packU32 o ++ (encPairs r ++ rest)) := by
      simp [List.append_assoc]
    have hl1 : pre.length + 4 = (pre ++ packU32 h).length := by
      simp [packU32_length]
    rw [e2, hl1, read_u32_at (pre ++ packU32 h) o _ ho]
    have hrec := ih ((pre ++ packU32 h) ++ packU32 o) (fun q hq => hps q (by simp [hq]))
    have hl3 : ((pre ++ packU32 h) ++ packU32 o).length = pre.length + 8 := by
      simp only [List.length_append, packU32_length]
    rw [hl3] at hrec
    simp only [List.append_assoc] at hrec ⊢
    rw [hrec]
    simp
    omega

/-! ## Lemmas: the blob built by dump and the NUL scan of parse -/

/-- The blob `dump_whm_table` builds: each text UTF-8 encoded,
NUL-terminated, concatenated. -/
def blobList : List String → List Nat
  | [] => []
  | t :: r => (utf8Encode (strCodes t) ++ [0]) ++ blobList r

/-- The offsets `dump_whm_table` records: each entry's starting position
relative to the blob start. -/
def offsList (base : Nat) : List String → List Nat
  | [] => []
  | t :: r => base :: offsList (base + ((utf8Encode (strCodes t)).length + 1)) r

theorem buildBlobAux_eq (base : Nat) (ts : List String) :
    buildBlobAux base ts = (blobList ts, offsList base ts) := by
  induction ts generalizing base with
  | nil => rfl
  | cons t r ih =>
    rw [buildBlobAux, blobList, offsList]
    simp only [List.length_append, List.length_cons, List.length_nil]
    rw [ih]

theorem offsList_length (base : Nat) (ts : List String) :
    (offsList base ts).length = ts.length := by
  induction ts generalizing base with
  | nil => rfl
  | cons t r ih => rw [offsList, List.length_cons, List.length_cons, ih]

theorem offsList_le (ts : List String) (base : Nat) :
    ∀ o ∈ offsList base ts, o ≤ base + (blobList ts).length := by
  induction ts generalizing base with
  | nil => intro o ho; rw [offsList] at ho; exact absurd ho (List.not_mem_nil o)
  | cons t r ih =>
    intro o ho
    rw [offsList] at ho
    rw [blobList]
    rcases List.mem_cons.mp ho with h | h
    · omega
    · have := ih (base + ((utf8Encode (strCodes t)).length + 1)) o h
      simp only [List.length_append, List.length_cons, List.length_nil] at this ⊢
      omega

theorem scanZero_unfold (blob : List Nat) (bs j : Nat) :
    scanZero blob bs j =
      if j < bs then
        match blob[j]? with
        | none => none
        | some b => if b ≠ 0 then scanZero blob bs (j + 1) else some j
      else some j :=
  scanZero_unfold_eq blob bs j

theorem scanZero_isSome_aux (blob : List Nat) (bs : Nat) (hlen : bs ≤ blob.length) :
    ∀ n j, bs - j ≤ n → (scanZero blob bs j).isSome := by
  intro n
  induction n with
  | zero =>
    intro j hj
    rw [scanZero_unfold, if_neg (by omega)]
    rfl
  | succ n ihn =>
    intro j hj
    rw [scanZero_unfold]
    by_cases hjb : j < bs
    · rw [if_pos hjb]
      have hj2 : j < blob.length := lt_of_lt_of_le hjb hlen
      rw [List.getElem?_eq_getElem hj2]
      show (if blob[j] ≠ 0 then scanZero blob bs (j + 1) else some j).isSome = true
      by_cases hz : blob[j] ≠ 0
      · rw [if_pos hz]
        exact ihn (j + 1) (by omega)
      · rw [if_neg hz]
        rfl
    · rw [if_neg hjb]
      rfl

theorem scanZero_isSome (blob : List Nat) (bs j : Nat) (hlen : bs ≤ blob.length) :
    (scanZero blob bs j).isSome :=
  scanZero_isSome_aux blob bs hlen bs j (by omega)

theorem scanZero_seg (seg : List Nat) (blob rest : List Nat) (off : Nat)
    (hdrop : blob.drop off = seg ++ 0 :: rest)
    (hz : ∀ b ∈ seg, b ≠ 0) :
    scanZero blob blob.length off = some (off + seg.length) := by
  induction seg generalizing off with
  | nil =>
    have hoff : off < blob.length := by
      by_contra hc
      push_neg at hc
      rw [List.drop_eq_nil_of_le hc] at hdrop
      simp at hdrop
    have hb : blob[off]? = some 0 := by
      have hget := List.getElem?_drop blob off 0
      rw [hdrop] at hget
      simpa using hget.symm
    rw [scanZero_unfold, if_pos hoff, hb]
    simp
  | cons b seg' ih =>
    have hoff : off < blob.length := by
      by_contra hc
      push_neg at hc
      rw [List.drop_eq_nil_of_le hc] at hdrop
      simp at hdrop
    have hb : blob[off]? = some b := by
      have hget := List.getElem?_drop blob off 0
      rw [hdrop] at hget
      simpa using hget.symm
    have hbz : b ≠ 0 := hz b (by simp)
    rw [scanZero_unfold, if_pos hoff, hb]
    show (if b ≠ 0 then scanZero blob blob.length (off + 1) else some off) =
      some (off + (b :: seg').length)
    rw [if_pos hbz]
    have hdrop' : blob.drop (off + 1) = seg' ++ 0 :: rest := by
      rw [← List.tail_drop, hdrop]
      simp
    rw [ih off.succ hdrop' (fun x hx => hz x (by simp [hx]))]
    simp only [List.length_cons]
    congr 1
    omega

/-! ## Lemmas: per-entry decoding -/

theorem decode_bytes_utf8 (bts cs : List Nat) (h : utf8Decode bts = some cs) :
    decode_bytes bts = cs := by
  simp [decode_bytes, h]

theorem parseEntry_at (blob rest : List Nat) (h off : Nat) (seg : List Nat)
    (hdrop : blob.drop off = seg ++ 0 :: rest)
    (hz : ∀ b ∈ seg, b ≠ 0) :
    parseEntry blob blob.length (h, off) =
      some (h, if seg = [] then strCodes "[BINARY]" else decode_bytes seg) := by
  have hoff : off < blob.length := by
    by_contra hc
    push_neg at hc
    rw [List.drop_eq_nil_of_le hc] at hdrop
    simp at hdrop
  have htake : (blob.drop off).take (off + seg.length - off) = seg := by
    rw [hdrop]
    have he : off + seg.length - off = seg.length := by omega
    rw [he]
    exact List.take_left seg (0 :: rest)
  have htake2 : (blob.drop off).take seg.length = seg := by
    have he : off + seg.length - off = seg.length := by omega
    rw [he] at htake
    exact htake
  simp only [parseEntry, if_pos hoff]
  rw [scanZero_seg seg blob rest off hdrop hz]
  simp only [Option.bind_some, Option.some_bind, Option.bind_eq_bind]
  simp [htake2]

theorem parseEntry_out (blob : List Nat) (bs h off : Nat) (hoff : bs ≤ off) :
    parseEntry blob bs (h, off) = some (h, strCodes "[BINARY]") := by
  simp only [parseEntry]
  rw [if_neg (by omega)]
  simp

theorem parseEntry_isSome (blob : List Nat) (bs : Nat) (e : Nat × Nat)
    (hlen : bs ≤ blob.length) : (parseEntry blob bs e).isSome := by
  obtain ⟨h, off⟩ := e
  simp only [parseEntry]
  by_cases hoff : off < bs
  · rw [if_pos hoff]
    obtain ⟨j, hj⟩ := Option.isSome_iff_exists.mp (scanZero_isSome blob bs off hlen)
    simp [hj]
  · rw [if_neg hoff]
    simp

theorem parseEntryList_some (blob : List Nat) (bs : Nat) (es : List (Nat × Nat))
    (hall : ∀ e ∈ es, (parseEntry blob bs e).isSome) :
    ∃ res, parseEntryList blob bs es = some res ∧ res.length = es.length ∧
      ∀ i : Nat, res[i]? = (es[i]?).bind (parseEntry blob bs) := by
  induction es with
  | nil =>
    refine ⟨[], rfl, rfl, ?_⟩
    intro i
    simp
  | cons e r ih =>
    obtain ⟨v, hv⟩ := Option.isSome_iff_exists.mp (hall e (by simp))
    obtain ⟨res, hres, hlen, hidx⟩ := ih (fun x hx => hall x (by simp [hx]))
    refine ⟨v :: res, ?_, by simp [hlen], ?_⟩
    · rw [parseEntryList]
      simp [hv, hres]
    · intro i
      cases i with
      | zero => simp [hv]
      | succ n => simpa using hidx n

theorem parse_entries_roundtrip (items : List (Int × String)) (pre blob : List Nat)
    (hblob : blob = pre ++ blobList (items.map (fun it => it.2)))
    (htxt : ∀ p ∈ items, p.2 ≠ "" ∧ ∀ c ∈ strCodes p.2, c ≠ 0) :
    parseEntryList blob blob.length
      ((items.map (fun it => it.1.toNat)).zip
        (offsList pre.length (items.map (fun it => it.2)))) =
      some (items.map (fun it => (it.1.toNat, strCodes it.2))) := by
  induction items generalizing pre with
  | nil => simp [blobList, offsList, parseEntryList]
  | cons it r ih =>
    simp only [List.map_cons]
    rw [offsList, List.zip_cons_cons]
    have hdropped : blob.drop pre.length =
        utf8Encode (strCodes it.2) ++ 0 :: blobList (r.map (fun x => x.2)) := by
      rw [hblob, List.drop_left]
      simp [blobList, List.append_assoc]
    have hz := utf8Encode_ne_zero (strCodes it.2) (htxt it (by simp)).2
    have hseg := parseEntry_at blob _ it.1.toNat pre.length (utf8Encode (strCodes it.2))
      hdropped hz
    have hne : utf8Encode (strCodes it.2) ≠ [] :=
      utf8Encode_ne_nil _ (strCodes_ne_nil _ (htxt it (by simp)).1)
    rw [if_neg hne] at hseg
    rw [decode_bytes_utf8 _ _ (utf8Encode_decode _ (strCodes_scalar it.2))] at hseg
    have hih := ih (pre ++ (utf8Encode (strCodes it.2) ++ [0]))
      (by rw [hblob]; simp [blobList, List.append_assoc])
      (fun p hp => htxt p (by simp [hp]))
    have hl : (pre ++ (utf8Encode (strCodes it.2) ++ [0])).length =
        pre.length + ((utf8Encode (strCodes it.2)).length + 1) := by
      simp
    rw [hl] at hih
    rw [parseEntryList]
    simp [hseg, hih]

/-! ## Lemmas: the exact bytes dump emits -/

theorem dumpPairs_enc (hs : List Int) (os : List Nat)
    (hh : ∀ h ∈ hs, 0 ≤ h ∧ h < 4294967296)
    (ho : ∀ o ∈ os, o < 4294967296) :
    dumpPairs (hs.zip os) = some (encPairs ((hs.map Int.toNat).zip os)) := by
  induction hs generalizing os with
  | nil => simp [dumpPairs, encPairs]
  | cons h hs' ih =>
    cases os with
    | nil => simp [dumpPairs, encPairs]
    | cons o os' =>
      have h1 := hh h (by simp)
      have h2 := ho o (by simp)
      rw [List.zip_cons_cons, dumpPairs]
      rw [packIntU32, if_pos h1, packNatU32, if_pos h2]
      rw [ih os' (fun x hx => hh x (by simp [hx])) (fun x hx => ho x (by simp [hx]))]
      simp [encPairs, List.append_assoc]
      try rfl

theorem dump_layout (items : List (Int × String))
    (hh : ∀ p ∈ items, 0 ≤ p.1 ∧ p.1 < 4294967296)
    (hc : items.length < 4294967296)
    (hb : (blobList (items.map (fun it => it.2))).length < 4294967296) :
    dump_whm_table items = some
      (packU32 items.length ++
        encPairs ((items.map (fun it => it.1.toNat)).zip
          (offsList 0 (items.map (fun it => it.2)))) ++
        packU32 (blobList (items.map (fun it => it.2))).length ++
        blobList (items.map (fun it => it.2))) := by
  have hzip := dumpPairs_enc (items.map (fun it => it.1))
    (offsList 0 (items.map (fun it => it.2)))
    (fun h hmem => by
      obtain ⟨p, hp, rfl⟩ := List.mem_map.mp hmem
      exact hh p hp)
    (fun o ho' => by
      have := offsList_le (items.map (fun it => it.2)) 0 o ho'
      omega)
  simp only [dump_whm_table, buildBlobAux_eq]
  rw [packNatU32, if_pos hc]
  rw [show (items.map (fun it => it.1)).map Int.toNat =
    items.map (fun it => it.1.toNat) from by simp [List.map_map]] at hzip
  simp only [hzip]
  rw [packNatU32, if_pos hb]
  simp

/-! ## Lemmas: reading back the emitted layout -/

theorem read_u32_head (n : Nat) (rest : List Nat) (h : n < 4294967296) :
    read_u32 (packU32 n ++ rest) 0 = some (n, 4) := by
  have := read_u32_at [] n rest h
  simpa using this

theorem read_entries_layout (ps : List (Nat × Nat)) (bsz : Nat) (bl : List Nat)
    (hc : ps.length < 4294967296)
    (hps : ∀ p ∈ ps, p.1 < 4294967296 ∧ p.2 < 4294967296)
    (hbs : bsz < 4294967296) :
    read_entries (packU32 ps.length ++ encPairs ps ++ packU32 bsz ++ bl) =
      some (ps, 8 + 8 * ps.length, bsz) := by
  simp only [read_entries, List.append_assoc]
  rw [read_u32_head ps.length _ hc]
  have hloop := readEntriesLoop_at ps (packU32 ps.length) (packU32 bsz ++ bl) hps
  simp only [packU32_length, List.append_assoc] at hloop
  have h3 := read_u32_at (packU32 ps.length ++ encPairs ps) bsz bl hbs
  simp only [List.length_append, packU32_length, encPairs_length, List.append_assoc] at h3
  simp [hloop, h3]
  omega

theorem parse_dump_layout (items : List (Int × String))
    (hh : ∀ p ∈ items, 0 ≤ p.1 ∧ p.1 < 4294967296)
    (hc : items.length < 4294967296)
    (hb : (blobList (items.map (fun it => it.2))).length < 4294967296)
    (htxt : ∀ p ∈ items, p.2 ≠ "" ∧ ∀ c ∈ strCodes p.2, c ≠ 0) :
    parse_whm_table
      (packU32 items.length ++
        encPairs ((items.map (fun it => it.1.toNat)).zip
          (offsList 0 (items.map (fun it => it.2)))) ++
        packU32 (blobList (items.map (fun it => it.2))).length ++
        blobList (items.map (fun it => it.2))) =
      some (items.map (fun it => (it.1.toNat, strCodes it.2))) := by
  have hlen_ps : ((items.map (fun it => it.1.toNat)).zip
      (offsList 0 (items.map (fun it => it.2)))).length = items.length := by
    rw [List.length_zip, offsList_length]
    simp
  have hps : ∀ p ∈ (items.map (fun it => it.1.toNat)).zip
      (offsList 0 (items.map (fun it => it.2))),
      p.1 < 4294967296 ∧ p.2 < 4294967296 := by
    intro p hp
    obtain ⟨h1, h2⟩ := List.of_mem_zip hp
    constructor
    · obtain ⟨q, hq, he⟩ := List.mem_map.mp h1
      have := hh q hq
      omega
    · have := offsList_le (items.map (fun it => it.2)) 0 p.2 h2
      omega
  have hread := read_entries_layout
    ((items.map (fun it => it.1.toNat)).zip (offsList 0 (items.map (fun it => it.2))))
    (blobList (items.map (fun it => it.2))).length
    (blobList (items.map (fun it => it.2)))
    (by rw [hlen_ps]; exact hc) hps hb
  rw [hlen_ps] at hread
  have hentries := parse_entries_roundtrip items [] (blobList (items.map (fun it => it.2)))
    (by simp) htxt
  simp only [List.length_nil] at hentries
  simp only [parse_whm_table]
  rw [hread]
  have hdrop : ((packU32 items.length ++
      encPairs ((items.map (fun it => it.1.toNat)).zip
        (offsList 0 (items.map (fun it => it.2)))) ++
      packU32 (blobList (items.map (fun it => it.2))).length ++
      blobList (items.map (fun it => it.2))).drop (8 + 8 * items.length)) =
      blobList (items.map (fun it => it.2)) := by
    have hl : (packU32 items.length ++
        encPairs ((items.map (fun it => it.1.toNat)).zip
          (offsList 0 (items.map (fun it => it.2)))) ++
        packU32 (blobList (items.map (fun it => it.2))).length).length =
        8 + 8 * items.length := by
      simp [packU32_length, encPairs_length, hlen_ps]
      omega
    rw [← hl, List.drop_left]
  simp only [List.append_assoc] at hdrop
  simp [hdrop, List.take_length, hentries]

/-! ## Spec-side layout (written from the C2 claim's words, to compare with
`dump_whm_table`) -/

/-- Spec wording: a little-endian `uint32` field. -/
def specU32 (n : Nat) : List Nat :=
  [n % 256, n / 256 % 256, n / 65536 % 256, n / 16777216 % 256]

/-- Spec wording: "the blob is the concatenation of each text UTF-8-encoded
and NUL-terminated". -/
def specBlob : List (Int × String) → List Nat
  | [] => []
  | it :: r => (utf8Encode (strCodes it.2) ++ [0]) ++ specBlob r

/-- Spec wording: "each recorded offset is that entry's starting position
relative to the blob start", i.e. the length of the blob of the entries
before it. -/
def specOffset (items : List (Int × String)) (i : Nat) : Nat :=
  (specBlob (items.take i)).length

/-- Spec wording of the whole write layout: a `uint32` entry count, then
`entry_count` pairs of (`uint32` hash, `uint32` offset) in exactly the input
order, then a `uint32` blob size, then the blob. -/
def specLayout (items : List (Int × String)) : List Nat :=
  specU32 items.length ++
    ((List.range items.length).map (fun i =>
      specU32 ((items[i]?.getD (0, "")).1.toNat) ++ specU32 (specOffset items i))).flatten ++
    specU32 (specBlob items).length ++ specBlob items

theorem specU32_eq_packU32 (n : Nat) : specU32 n = packU32 n := rfl

theorem specBlob_eq_blobList (items : List (Int × String)) :
    specBlob items = blobList (items.map (fun it => it.2)) := by
  induction items with
  | nil => rfl
  | cons it r ih => rw [specBlob, List.map_cons, blobList, ih]

theorem offsList_eq_range_map (ts : List String) (base : Nat) :
    offsList base ts =
      (List.range ts.length).map (fun i => base + (blobList (ts.take i)).length) := by
  induction ts generalizing base with
  | nil => simp [offsList]
  | cons t r ih =>
    rw [offsList, List.length_cons, List.range_succ_eq_map, List.map_cons, List.map_map]
    congr 1
    rw [ih (base + ((utf8Encode (strCodes t)).length + 1))]
    apply List.map_congr_left
    intro i _
    simp only [Function.comp_apply, List.take_succ_cons, blobList, List.length_append,
      List.length_cons, List.length_nil]
    omega

theorem encPairs_zip_range (hs os : List Nat) (hlen : hs.length = os.length) :
    encPairs (hs.zip os) =
      ((List.range hs.length).map (fun i =>
        packU32 (hs[i]?.getD 0) ++ packU32 (os[i]?.getD 0))).flatten := by
  induction hs generalizing os with
  | nil => simp [encPairs]
  | cons h hs' ih =>
    cases os with
    | nil => simp at hlen
    | cons o os' =>
      rw [List.zip_cons_cons, encPairs, List.length_cons, List.range_succ_eq_map,
        List.map_cons, List.map_map, List.flatten_cons]
      rw [ih os' (by simpa using hlen)]
      have hshift : List.map (fun i => packU32 (hs'[i]?.getD 0) ++ packU32 (os'[i]?.getD 0))
          (List.range hs'.length) =
          List.map ((fun i => packU32 ((h :: hs')[i]?.getD 0) ++
            packU32 ((o :: os')[i]?.getD 0)) ∘ Nat.succ) (List.range hs'.length) := by
        apply List.map_congr_left
        intro i _
        simp [Function.comp]
      rw [← hshift]
      simp [List.append_assoc]

/-- C2 helper: the zipped pair array dump emits equals the spec's
range-indexed pair array. -/
theorem encPairs_eq_spec_pairs (items : List (Int × String)) :
    encPairs ((items.map (fun it => it.1.toNat)).zip
        (offsList 0 (items.map (fun it => it.2)))) =
      ((List.range items.length).map (fun i =>
        specU32 ((items[i]?.getD (0, "")).1.toNat) ++ specU32 (specOffset items i))).flatten := by
  rw [offsList_eq_range_map]
  rw [encPairs_zip_range _ _ (by simp)]
  simp only [List.length_map]
  apply congrArg List.flatten
  apply List.map_congr_left
  intro i hi
  have hi' : i < items.length := List.mem_range.mp hi
  have hh : (items.map (fun it => it.1.toNat))[i]?.getD 0 =
      (items[i]?.getD (0, "")).1.toNat := by
    rw [List.getElem?_map, List.getElem?_eq_getElem hi']
    rfl
  have ho : ((List.range items.length).map
      (fun j => 0 + (blobList ((items.map (fun it => it.2)).take j)).length))[i]?.getD 0 =
      specOffset items i := by
    rw [List.getElem?_map, List.getElem?_range hi']
    rw [specOffset, specBlob_eq_blobList, List.map_take]
    simp
  rw [hh, ho, specU32_eq_packU32, specU32_eq_packU32]


/-! ## Lemmas: parsing any buffer with a complete blob region -/

theorem parseEntry_nul (blob : List Nat) (bs h off : Nat) (hoff : off < bs)
    (hnul : blob[off]? = some 0) :
    parseEntry blob bs (h, off) = some (h, strCodes "[BINARY]") := by
  have hscan : scanZero blob bs off = some off := by
    rw [scanZero_unfold, if_pos hoff, hnul]
    simp
  simp only [parseEntry, if_pos hoff]
  rw [hscan]
  simp

theorem parse_complete (data : List Nat) (entries : List (Nat × Nat)) (bstart bs : Nat)
    (hre : read_entries data = some (entries, bstart, bs))
    (hcomplete : bstart + bs ≤ data.length) :
    ∃ res, parse_whm_table data = some res ∧ res.length = entries.length ∧
      ∀ i : Nat, res[i]? = (entries[i]?).bind (parseEntry ((data.drop bstart).take bs) bs) := by
  have hblen : ((data.drop bstart).take bs).length = bs := by
    rw [List.length_take, List.length_drop]
    omega
  have hall : ∀ e ∈ entries, (parseEntry ((data.drop bstart).take bs) bs e).isSome := by
    intro e _
    exact parseEntry_isSome _ _ e (by omega)
  obtain ⟨res, hres, hlen, hidx⟩ := parseEntryList_some _ _ _ hall
  refine ⟨res, ?_, hlen, hidx⟩
  simp only [parse_whm_table, hre]
  simpa using hres

/-! ## Claim theorems: the patch-table binary codec -/

/-- C2: for every ordered sequence of entries whose hashes are `uint32` (and
whose count and blob size fit `uint32`), `dump_whm_table` emits exactly the
spec's layout: a little-endian `uint32` entry count, the `(hash, offset)`
pairs in input order with no re-sort, a `uint32` blob size, and the blob of
NUL-terminated UTF-8 texts, each offset being that entry's starting position
relative to the blob start. -/
theorem c2_dump_emits_spec_layout (items : List (Int × String))
    (hh : ∀ p ∈ items, 0 ≤ p.1 ∧ p.1 < 4294967296)
    (hc : items.length < 4294967296)
    (hb : (specBlob items).length < 4294967296) :
    dump_whm_table items = some (specLayout items) := by
  have hb' : (blobList (items.map (fun it => it.2))).length < 4294967296 := by
    rw [← specBlob_eq_blobList]
    exact hb
  rw [dump_layout items hh hc hb']
  rw [specLayout, ← encPairs_eq_spec_pairs, specBlob_eq_blobList]
  rfl

/-- C2 witness: the layout equality evaluated on two concrete entries. -/
theorem c2_dump_emits_spec_layout_witness :
    (∀ p ∈ [((305419896 : Int), "Hi"), ((1 : Int), "A")], 0 ≤ p.1 ∧ p.1 < 4294967296) ∧
    ([((305419896 : Int), "Hi"), ((1 : Int), "A")].length < 4294967296) ∧
    ((specBlob [((305419896 : Int), "Hi"), ((1 : Int), "A")]).length < 4294967296) ∧
    dump_whm_table [((305419896 : Int), "Hi"), ((1 : Int), "A")] =
      some (specLayout [((305419896 : Int), "Hi"), ((1 : Int), "A")]) :=
  ⟨by decide, by decide, by decide,
    c2_dump_emits_spec_layout [((305419896 : Int), "Hi"), ((1 : Int), "A")]
      (by decide) (by decide) (by decide)⟩

/-- C1 counterexample: an entry written with the empty text does not read
back as the empty text — the round trip returns the `"[BINARY]"` sentinel
for it, so the round-trip claim fails as stated. -/
theorem c1_roundtrip_counterexample :
    (dump_whm_table [((0 : Int), "")]).bind parse_whm_table =
      some [(0, strCodes "[BINARY]")] ∧
    strCodes "[BINARY]" ≠ strCodes "" := by
  constructor
  · decide
  · decide

/-- C1 (amended): writing entries with `dump_whm_table` and re-reading with
`parse_whm_table` reproduces the same `(hash, text)` pairs in the same
order, provided every hash fits `uint32`, every text is nonempty and
contains no NUL character, and the count and blob size fit `uint32`. -/
theorem c1_roundtrip_amended (items : List (Int × String))
    (hh : ∀ p ∈ items, 0 ≤ p.1 ∧ p.1 < 4294967296)
    (htxt : ∀ p ∈ items, p.2 ≠ "" ∧ ∀ c ∈ strCodes p.2, c ≠ 0)
    (hc : items.length < 4294967296)
    (hb : (specBlob items).length < 4294967296) :
    (dump_whm_table items).bind parse_whm_table =
      some (items.map (fun it => (it.1.toNat, strCodes it.2))) := by
  have hb' : (blobList (items.map (fun it => it.2))).length < 4294967296 := by
    rw [← specBlob_eq_blobList]
    exact hb
  rw [dump_layout items hh hc hb']
  simpa using parse_dump_layout items hh hc hb' htxt

/-- C1 witness: the spec's own concrete scenario, hashes `0xDEADBEEF` and
`1` with texts `"Hello"` and `"World"`, round-trips. -/
theorem c1_roundtrip_amended_witness :
    (∀ p ∈ [((3735928559 : Int), "Hello"), ((1 : Int), "World")],
      0 ≤ p.1 ∧ p.1 < 4294967296) ∧
    (∀ p ∈ [((3735928559 : Int), "Hello"), ((1 : Int), "World")],
      p.2 ≠ "" ∧ ∀ c ∈ strCodes p.2, c ≠ 0) ∧
    (dump_whm_table [((3735928559 : Int), "Hello"), ((1 : Int), "World")]).bind
        parse_whm_table =
      some [(3735928559, strCodes "Hello"), (1, strCodes "World")] :=
  ⟨by decide, by decide,
    c1_roundtrip_amended [((3735928559 : Int), "Hello"), ((1 : Int), "World")]
      (by decide) (by decide) (by decide) (by decide)⟩

/-- C9: in any patch-table buffer whose header parses and whose blob region
is fully present, an entry whose in-range offset points directly at a NUL
byte (a stored empty string) reads back as the `"[BINARY]"` sentinel, not as
the empty string. -/
theorem c9_empty_text_reads_sentinel (data : List Nat) (entries : List (Nat × Nat))
    (bstart bs i h off : Nat)
    (hre : read_entries data = some (entries, bstart, bs))
    (hcomplete : bstart + bs ≤ data.length)
    (hent : entries[i]? = some (h, off))
    (hoff : off < bs)
    (hnul : ((data.drop bstart).take bs)[off]? = some 0) :
    parse_whm_table data ≠ none ∧
      ((parse_whm_table data).getD [])[i]? = some (h, strCodes "[BINARY]") ∧
      strCodes "[BINARY]" ≠ strCodes "" := by
  obtain ⟨res, hres, hlen, hidx⟩ := parse_complete data entries bstart bs hre hcomplete
  rw [hres]
  refine ⟨by simp, ?_, by decide⟩
  have hi := hidx i
  rw [hent] at hi
  simp only [Option.some_bind] at hi
  rw [parseEntry_nul _ _ _ _ hoff hnul] at hi
  simpa using hi

/-- C9 witness: the buffer `dump_whm_table` writes for one entry with text
`""` reads back as the sentinel. -/
theorem c9_empty_text_reads_sentinel_witness :
    dump_whm_table [((5 : Int), "")] =
      some [1, 0, 0, 0, 5, 0, 0, 0, 0, 0, 0, 0, 1, 0, 0, 0, 0] ∧
    read_entries [1, 0, 0, 0, 5, 0, 0, 0, 0, 0, 0, 0, 1, 0, 0, 0, 0] =
      some ([(5, 0)], 16, 1) ∧
    (parse_whm_table [1, 0, 0, 0, 5, 0, 0, 0, 0, 0, 0, 0, 1, 0, 0, 0, 0] ≠ none ∧
      ((parse_whm_table [1, 0, 0, 0, 5, 0, 0, 0, 0, 0, 0, 0, 1, 0, 0, 0, 0]).getD
          [])[0]? = some (5, strCodes "[BINARY]") ∧
      strCodes "[BINARY]" ≠ strCodes "") :=
  ⟨by decide, by decide,
    c9_empty_text_reads_sentinel [1, 0, 0, 0, 5, 0, 0, 0, 0, 0, 0, 0, 1, 0, 0, 0, 0]
      [(5, 0)] 16 1 0 5 0 (by decide) (by decide) (by decide) (by decide) (by decide)⟩

/-- C3 counterexample: a buffer whose header parses (count 2, entries
`(7, 10)` out of range and `(1, 0)` in range, blob size 5) but whose blob
bytes are missing: the read raises (`IndexError`) instead of returning the
out-of-range entry with its sentinel alongside the others. -/
theorem c3_out_of_range_counterexample :
    read_entries [2, 0, 0, 0, 7, 0, 0, 0, 10, 0, 0, 0, 1, 0, 0, 0, 0, 0, 0, 0, 5, 0, 0, 0] =
      some ([(7, 10), (1, 0)], 24, 5) ∧
    parse_whm_table [2, 0, 0, 0, 7, 0, 0, 0, 10, 0, 0, 0, 1, 0, 0, 0, 0, 0, 0, 0, 5, 0, 0, 0] =
      none := by
  constructor
  · decide
  · decide

/-- C3 (amended): in any patch-table buffer whose header parses and whose
blob region lies fully inside the buffer, an entry with offset `≥ blob_size`
(including `= blob_size`) is returned with the `"[BINARY]"` sentinel, the
read does not fail, and all entries are returned. -/
theorem c3_out_of_range_sentinel (data : List Nat) (entries : List (Nat × Nat))
    (bstart bs i h off : Nat)
    (hre : read_entries data = some (entries, bstart, bs))
    (hcomplete : bstart + bs ≤ data.length)
    (hent : entries[i]? = some (h, off))
    (hoff : bs ≤ off) :
    parse_whm_table data ≠ none ∧
      ((parse_whm_table data).getD []).length = entries.length ∧
      ((parse_whm_table data).getD [])[i]? = some (h, strCodes "[BINARY]") := by
  obtain ⟨res, hres, hlen, hidx⟩ := parse_complete data entries bstart bs hre hcomplete
  rw [hres]
  refine ⟨by simp, by simpa using hlen, ?_⟩
  have hi := hidx i
  rw [hent] at hi
  simp only [Option.some_bind] at hi
  rw [parseEntry_out _ _ _ _ hoff] at hi
  simpa using hi

/-- C3 witness: a well-formed one-entry buffer whose offset 5 exceeds the
blob size 3 reads back with the sentinel and the read succeeds. -/
theorem c3_out_of_range_sentinel_witness :
    read_entries [1, 0, 0, 0, 7, 0, 0, 0, 5, 0, 0, 0, 3, 0, 0, 0, 65, 66, 0] =
      some ([(7, 5)], 16, 3) ∧
    (parse_whm_table [1, 0, 0, 0, 7, 0, 0, 0, 5, 0, 0, 0, 3, 0, 0, 0, 65, 66, 0] ≠ none ∧
      ((parse_whm_table [1, 0, 0, 0, 7, 0, 0, 0, 5, 0, 0, 0, 3, 0, 0, 0, 65, 66, 0]).getD
          []).length = 1 ∧
      ((parse_whm_table [1, 0, 0, 0, 7, 0, 0, 0, 5, 0, 0, 0, 3, 0, 0, 0, 65, 66, 0]).getD
          [])[0]? = some (7, strCodes "[BINARY]")) :=
  ⟨by decide,
    c3_out_of_range_sentinel
      [1, 0, 0, 0, 7, 0, 0, 0, 5, 0, 0, 0, 3, 0, 0, 0, 65, 66, 0]
      [(7, 5)] 16 3 0 7 5 (by decide) (by decide) (by decide) (by decide)⟩

/-- C4: the encoding resolver is total and ordered: `decode_bytes` returns
the first success of the ordered attempts `utf-8`, `cp1252`, `latin1`, with
the escaped-bytes `bts.hex()` as terminal fallback; the attempt chain itself
always succeeds (`latin1` decodes every byte string), so `decode_bytes`
never fails — in particular every byte string invalid as UTF-8 still
decodes. -/
theorem c4_decode_bytes_total_ordered (bts : List Nat) :
    decode_bytes bts = (encAttempts.findSome? (fun d => d bts)).getD (hexStr bts) ∧
    (encAttempts.findSome? (fun d => d bts)).isSome = true := by
  cases hu : utf8Decode bts with
  | some s => simp [encAttempts, List.findSome?, decode_bytes, hu]
  | none =>
    cases hc : cp1252Decode bts with
    | some s => simp [encAttempts, List.findSome?, decode_bytes, hu, hc]
    | none => simp [encAttempts, List.findSome?, decode_bytes, hu, hc, latin1Decode]

/-! ## Lemmas: the patch-table text loader -/

theorem str_ne_empty_of_data (s : String) (h : s.data ≠ []) : s ≠ "" := by
  intro he
  apply h
  rw [he]

theorem data_append_eq (key text : String) :
    (key ++ "=" ++ text).data = key.data ++ '=' :: text.data := by
  rw [String.data_append, String.data_append]
  simp [List.append_assoc]

theorem hasEq_append (key text : String) : hasEq (key ++ "=" ++ text) = true := by
  rw [hasEq, data_append_eq]
  simp

theorem takeWhile_ne_eq (l r : List Char) (hl : ∀ c ∈ l, c ≠ '=') :
    (l ++ '=' :: r).takeWhile (fun c => c != '=') = l := by
  induction l with
  | nil => simp
  | cons c l' ih =>
    have hc : c ≠ '=' := hl c (by simp)
    simp [List.takeWhile_cons, hc, ih (fun x hx => hl x (by simp [hx]))]

theorem dropWhile_ne_eq (l r : List Char) (hl : ∀ c ∈ l, c ≠ '=') :
    (l ++ '=' :: r).dropWhile (fun c => c != '=') = '=' :: r := by
  induction l with
  | nil => simp
  | cons c l' ih =>
    have hc : c ≠ '=' := hl c (by simp)
    simp [List.dropWhile_cons, hc, ih (fun x hx => hl x (by simp [hx]))]

theorem splitEq1_append (key text : String) (hkey : ∀ c ∈ key.data, c ≠ '=') :
    splitEq1 (key ++ "=" ++ text) = (key, text) := by
  simp only [splitEq1, data_append_eq, List.span_eq_take_drop]
  rw [takeWhile_ne_eq key.data text.data hkey, dropWhile_ne_eq key.data text.data hkey]
  rfl

theorem load_txt_single_accept (key text : String) (v : Int)
    (hstrip : pyStrip (key ++ "=" ++ text) = key ++ "=" ++ text)
    (hkey : ∀ c ∈ key.data, c ≠ '=')
    (hv : hexIntParse key = some v) :
    load_txt_items [key ++ "=" ++ text] = [(v, text)] := by
  have hne : key ++ "=" ++ text ≠ "" :=
    str_ne_empty_of_data _ (by rw [data_append_eq]; simp)
  simp only [load_txt_items, List.filterMap]
  rw [hstrip]
  rw [if_neg hne, hasEq_append, splitEq1_append key text hkey]
  simp [hv]

theorem load_txt_single_reject (key text : String)
    (hstrip : pyStrip (key ++ "=" ++ text) = key ++ "=" ++ text)
    (hkey : ∀ c ∈ key.data, c ≠ '=')
    (hv : hexIntParse key = none) :
    load_txt_items [key ++ "=" ++ text] = [] := by
  have hne : key ++ "=" ++ text ≠ "" :=
    str_ne_empty_of_data _ (by rw [data_append_eq]; simp)
  simp only [load_txt_items, List.filterMap]
  rw [hstrip]
  rw [if_neg hne, hasEq_append, splitEq1_append key text hkey]
  simp [hv]

/-! ## Claim theorems: the patch-table text loader -/

/-- C10: `load_txt_items` imposes no 32-bit bound on hashes: any line whose
key part parses under Python's `int(key, 16)` is accepted with exactly that
integer, including `0x100000000 = 2^32` and negative values, and
`dump_whm_table` on such an accepted item raises (`struct.error`) while
packing the hash instead of producing a file. -/
theorem c10_loader_unbounded_hash :
    (∀ (key text : String) (v : Int),
      pyStrip (key ++ "=" ++ text) = key ++ "=" ++ text →
      (∀ c ∈ key.data, c ≠ '=') →
      hexIntParse key = some v →
      load_txt_items [key ++ "=" ++ text] = [(v, text)]) ∧
    load_txt_items ["100000000=x"] = [((4294967296 : Int), "x")] ∧
    dump_whm_table [((4294967296 : Int), "x")] = none ∧
    load_txt_items ["-1=y"] = [((-1 : Int), "y")] ∧
    dump_whm_table [((-1 : Int), "y")] = none := by
  refine ⟨load_txt_single_accept, ?_, ?_, ?_, ?_⟩
  · decide
  · decide
  · decide
  · decide

/-- C7 counterexample: the line `ff=hello`, whose key is not of the shape
`0x`+8 hex digits (the `dat` rule of `_validate_key_static` rejects it), is
nevertheless accepted by `load_txt_items` with hash `0xff`. -/
theorem c7_key_shape_counterexample :
    validateKeyStatic "ff" "IV" "dat" = false ∧
    load_txt_items ["ff=hello"] = [((255 : Int), "hello")] := by
  constructor
  · decide
  · decide

/-- C7 (amended): a line of the patch-table interchange text is accepted by
`load_txt_items` exactly when its key part parses as a hexadecimal integer
under Python's `int(key, 16)` — optional surrounding whitespace, optional
sign, optional `0x`/`0X` prefix, one or more hex digits — not only when it
is exactly `0x` followed by 8 hex digits; a line whose key does not parse is
rejected and excluded from the result. -/
theorem c7_accept_iff_hex_parses (key text : String) (v : Int)
    (hstrip : pyStrip (key ++ "=" ++ text) = key ++ "=" ++ text)
    (hkey : ∀ c ∈ key.data, c ≠ '=') :
    (hexIntParse key = some v → load_txt_items [key ++ "=" ++ text] = [(v, text)]) ∧
    (hexIntParse key = none → load_txt_items [key ++ "=" ++ text] = []) :=
  ⟨load_txt_single_accept key text v hstrip hkey,
    load_txt_single_reject key text hstrip hkey⟩

/-- C7 witness: the accept direction at the non-canonical key `ff` and the
reject direction packaged at a key that does not parse. -/
theorem c7_accept_iff_hex_parses_witness :
    load_txt_items ["ff=hello"] = [((255 : Int), "hello")] ∧
    load_txt_items ["zz=1"] = [] :=
  ⟨(c7_accept_iff_hex_parses "ff" "hello" 255 (by decide) (by decide)).1 (by decide),
    (c7_accept_iff_hex_parses "zz" "1" 0 (by decide) (by decide)).2 (by decide)⟩

/-! ## Spec-side key patterns (written from the C6 claim's table, to compare
with `_validate_key_static`) -/

/-- Spec wording: a digit, a letter, or an underscore. -/
def specWordChar (c : Char) : Bool :=
  c.isDigit || c.isAlpha || c == '_'

/-- Spec wording: a digit, an uppercase letter, or an underscore. -/
def specUpperChar (c : Char) : Bool :=
  c.isDigit || c.isUpper || c == '_'

/-- Spec wording: a hexadecimal digit. -/
def specHexDigit (c : Char) : Bool :=
  c.isDigit || decide ('a' ≤ c ∧ c ≤ 'f') || decide ('A' ≤ c ∧ c ≤ 'F')

/-- Spec row plain-7: 1-7 characters of digits/letters/underscore. -/
def spec_plain7 (key : String) : Bool :=
  decide (1 ≤ key.data.length) && decide (key.data.length ≤ 7)
    && key.data.all specWordChar

/-- Spec row hashed-short-upper: 1-7 characters of
digits/uppercase/underscore. -/
def spec_hashed_short_upper (key : String) : Bool :=
  decide (1 ≤ key.data.length) && decide (key.data.length ≤ 7)
    && key.data.all specUpperChar

/-- Spec row hashed-8hex: 1-8 hex digits. -/
def spec_hashed_8hex (key : String) : Bool :=
  decide (1 ≤ key.data.length) && decide (key.data.length ≤ 8)
    && key.data.all specHexDigit

/-- Spec wording: `0x` (or `0X`) followed by 8 hex digits. -/
def spec_0x8hex (key : String) : Bool :=
  match key.data with
  | '0' :: c :: rest => (c == 'x' || c == 'X') && rest.length == 8 && rest.all specHexDigit
  | _ => false

/-- Spec row plain-or-hash as the claim states it: a bare identifier of
letters/digits/underscore of any length OR `0x` + 8 hex digits. -/
def spec_plain_or_hash (key : String) : Bool :=
  (!key.data.isEmpty && key.data.all specWordChar) || spec_0x8hex key

/-- Spec wording: the key begins with `0x` or `0X`. -/
def spec_starts_0x (key : String) : Bool :=
  match key.data with
  | '0' :: c :: _ => c == 'x' || c == 'X'
  | _ => false

/-- The amended plain-or-hash row: a key beginning with `0x`/`0X` must be
exactly that prefix plus 8 hex digits; any other key must be a nonempty bare
identifier of letters/digits/underscore. -/
def spec_plain_or_hash_amended (key : String) : Bool :=
  if spec_starts_0x key then spec_0x8hex key
  else !key.data.isEmpty && key.data.all specWordChar

theorem specWordChar_eq (c : Char) : isWordChar c = specWordChar c := by
  simp [isWordChar, specWordChar, Char.isDigit, Char.isAlpha, Char.isUpper, Char.isLower,
    Char.le_def, Bool.or_assoc, Bool.or_comm, Bool.or_left_comm]

theorem specUpperChar_eq (c : Char) : isUpperWordChar c = specUpperChar c := by
  simp [isUpperWordChar, specUpperChar, Char.isDigit, Char.isUpper, Char.le_def]

theorem specHexDigit_eq (c : Char) : isHexChar c = specHexDigit c := by
  simp [isHexChar, specHexDigit, Char.isDigit, Char.le_def]

theorem spec_0x8hex_eq (key : String) : is0x8Hex key = spec_0x8hex key := by
  rw [is0x8Hex, spec_0x8hex, funext specHexDigit_eq]

theorem spec_starts_0x_eq : startsWith0x = spec_starts_0x := rfl

/-! ## Claim theorem: the per-dialect key validation table -/

/-- C6 counterexample: `0x12` is a bare identifier of letters and digits, so
the claim's plain-or-hash disjunction accepts it, but `_validate_key_static`
for the plain-or-hash dialect rejects it (keys starting `0x` must be exactly
`0x` + 8 hex digits). -/
theorem c6_plain_or_hash_counterexample :
    spec_plain_or_hash "0x12" = true ∧ validateKeyStatic "0x12" "IV" "gxt" = false := by
  constructor
  · decide
  · decide

/-- C6 (amended): the static validator matches the spec's table exactly for
plain-7 (III), hashed-short-upper (VC) and hashed-8hex (SA); for
plain-or-hash (IV) a key beginning with `0x`/`0X` must be exactly that
prefix plus 8 hex digits, and any other key must be a nonempty bare
identifier of letters/digits/underscore. -/
theorem c6_dialect_patterns (key : String) :
    validateKeyStatic key "III" "gxt" = spec_plain7 key ∧
    validateKeyStatic key "VC" "gxt" = spec_hashed_short_upper key ∧
    validateKeyStatic key "SA" "gxt" = spec_hashed_8hex key ∧
    validateKeyStatic key "IV" "gxt" = spec_plain_or_hash_amended key := by
  refine ⟨?_, ?_, ?_, ?_⟩
  · have h : validateKeyStatic key "III" "gxt" =
        (decide (1 ≤ key.data.length) && decide (key.data.length ≤ 7)
          && key.data.all isWordChar) := by
      simp [validateKeyStatic]
    rw [h, spec_plain7, funext specWordChar_eq]
  · have h : validateKeyStatic key "VC" "gxt" =
        (decide (1 ≤ key.data.length) && decide (key.data.length ≤ 7)
          && key.data.all isUpperWordChar) := by
      simp [validateKeyStatic]
    rw [h, spec_hashed_short_upper, funext specUpperChar_eq]
  · have h : validateKeyStatic key "SA" "gxt" =
        (decide (1 ≤ key.data.length) && decide (key.data.length ≤ 8)
          && key.data.all isHexChar) := by
      simp [validateKeyStatic]
    rw [h, spec_hashed_8hex, funext specHexDigit_eq]
  · have h : validateKeyStatic key "IV" "gxt" =
        (if startsWith0x key then is0x8Hex key
          else !key.data.isEmpty && key.data.all isWordChar) := by
      simp [validateKeyStatic]
    rw [h, spec_plain_or_hash_amended, spec_0x8hex_eq, funext specWordChar_eq,
      spec_starts_0x_eq]

/-! ## Lemmas: the interchange loader in single-table mode -/

/-- The table update one line performs in single-table mode: a nonempty
`key=value` line with a valid nonempty key stores the stripped value under
the stripped key; every other line leaves the table unchanged. -/
def applyLine (v : String) (tbl : List (String × String)) (raw : String) :
    List (String × String) :=
  let l := pyStrip raw
  if l ≠ "" ∧ hasEq l = true ∧
      validateKeyStatic (pyStrip (splitEq1 l).1) v "gxt" = true ∧
      pyStrip (splitEq1 l).1 ≠ "" then
    assocSet (pyStrip (splitEq1 l).1) (pyStrip (splitEq1 l).2) tbl
  else tbl

/-- The `MAIN` table after the loader's line loop, in single-table mode. -/
def procTbl (v : String) (tbl : List (String × String)) : List String → List (String × String)
  | [] => tbl
  | raw :: rest => procTbl v (applyLine v tbl raw) rest

/-- The error tuple one line contributes: a nonempty `key=value` line whose
stripped key fails the dialect rule is reported as
`(key, lineNumber, filePath, message)`. -/
def lineErr (v fp : String) (n : Nat) (raw : String) :
    Option (String × Nat × String × String) :=
  let l := pyStrip raw
  if l ≠ "" ∧ hasEq l = true ∧
      validateKeyStatic (pyStrip (splitEq1 l).1) v "gxt" = false then
    some (pyStrip (splitEq1 l).1, n, fp, getKeyValidationMessage v "gxt")
  else none

/-- The error list after the loader's line loop, 1-indexed from `n`. -/
def procErrs (v fp : String) (n : Nat) : List String → List (String × Nat × String × String)
  | [] => []
  | raw :: rest => (lineErr v fp n raw).toList ++ procErrs v fp (n + 1) rest

theorem assocSet_lookup_self (k : String) (v' : String) (tbl : List (String × String)) :
    (assocSet k v' tbl).lookup k = some v' := by
  induction tbl with
  | nil => simp [assocSet]
  | cons p r ih =>
    obtain ⟨k', w⟩ := p
    rw [assocSet]
    by_cases hk : k' = k
    · simp [hk, List.lookup]
    · have hb : (k == k') = false := beq_eq_false_iff_ne.mpr (fun he => hk he.symm)
      rw [if_neg hk]
      simp [List.lookup, hb, ih]

theorem assocSet_lookup_ne (k k' : String) (hne : k ≠ k') (v' : String)
    (tbl : List (String × String)) :
    (assocSet k' v' tbl).lookup k = tbl.lookup k := by
  have hb : (k == k') = false := by simp [hne]
  induction tbl with
  | nil => simp [assocSet, List.lookup, hb]
  | cons p r ih =>
    obtain ⟨k0, w⟩ := p
    rw [assocSet]
    by_cases hk : k0 = k'
    · subst hk
      simp [List.lookup, hb]
    · simp only [if_neg hk, List.lookup]
      cases hb0 : k == k0 <;> simp [ih]

theorem assocSet_lookup_isSome (k k' : String) (v' : String) (tbl : List (String × String))
    (h : (tbl.lookup k).isSome = true) :
    ((assocSet k' v' tbl).lookup k).isSome = true := by
  by_cases hk : k = k'
  · subst hk
    rw [assocSet_lookup_self]
    rfl
  · rw [assocSet_lookup_ne k k' hk]
    exact h

theorem hasEq_ne_empty (l : String) (h : hasEq l = true) : l ≠ "" := by
  intro he
  subst he
  simp [hasEq] at h

theorem processLine_main (v fp : String) (tbl : List (String × String))
    (acc : List (String × Nat × String × String)) (n : Nat) (raw : String) :
    processLine false v fp ⟨[("MAIN", tbl)], acc, some "MAIN"⟩ n raw =
      some ⟨[("MAIN", applyLine v tbl raw)], acc ++ (lineErr v fp n raw).toList,
        some "MAIN"⟩ := by
  simp only [processLine, Bool.false_and]
  by_cases h0 : pyStrip raw = ""
  · simp [h0, applyLine, lineErr]
  · simp only [if_neg h0]
    cases hq : hasEq (pyStrip raw) with
    | false => simp [applyLine, lineErr, h0, hq]
    | true =>
      by_cases hval : validateKeyStatic (pyStrip (splitEq1 (pyStrip raw)).1) v "gxt" = false
      · simp [hval, applyLine, lineErr, h0, hq]
      · have hval' : validateKeyStatic (pyStrip (splitEq1 (pyStrip raw)).1) v "gxt" = true := by
          revert hval
          cases validateKeyStatic (pyStrip (splitEq1 (pyStrip raw)).1) v "gxt" <;> simp
        by_cases hk : pyStrip (splitEq1 (pyStrip raw)).1 = ""
        · rw [hk] at hval'
          simp [hk, applyLine, lineErr, h0, hq, hval']
        · simp [hval, hk, applyLine, lineErr, h0, hq, hval', assocSet]

theorem mem_of_getElem_eq (l : List String) (i : Nat) (a : String)
    (h : l[i]? = some a) : a ∈ l := by
  rcases List.getElem?_eq_some.mp h with ⟨hi, rfl⟩
  exact List.getElem_mem hi

theorem loadLines_main (v fp : String) (lines : List String) :
    ∀ (tbl : List (String × String)) (acc : List (String × Nat × String × String)) (n : Nat),
    loadLinesFrom false v fp ⟨[("MAIN", tbl)], acc, some "MAIN"⟩ n lines =
      some ⟨[("MAIN", procTbl v tbl lines)], acc ++ procErrs v fp n lines, some "MAIN"⟩ := by
  induction lines with
  | nil =>
    intro tbl acc n
    rw [show loadLinesFrom false v fp ⟨[("MAIN", tbl)], acc, some "MAIN"⟩ n [] =
      some ⟨[("MAIN", tbl)], acc, some "MAIN"⟩ from rfl, procTbl, procErrs]
    rw [List.append_nil]
  | cons raw rest ih =>
    intro tbl acc n
    rw [show loadLinesFrom false v fp ⟨[("MAIN", tbl)], acc, some "MAIN"⟩ n (raw :: rest) =
      (processLine false v fp ⟨[("MAIN", tbl)], acc, some "MAIN"⟩ n raw).bind
        (fun st2 => loadLinesFrom false v fp st2 (n + 1) rest) from rfl]
    rw [processLine_main]
    show loadLinesFrom false v fp ⟨[("MAIN", applyLine v tbl raw)],
      acc ++ (lineErr v fp n raw).toList, some "MAIN"⟩ (n + 1) rest = _
    rw [ih (applyLine v tbl raw) (acc ++ (lineErr v fp n raw).toList) (n + 1)]
    rw [procTbl, procErrs]
    simp [List.append_assoc]

theorem procErrs_mem (v fp : String) (lines : List String) :
    ∀ (n i : Nat) (raw : String) (e : String × Nat × String × String),
    lines[i]? = some raw → lineErr v fp (n + i) raw = some e →
    e ∈ procErrs v fp n lines := by
  induction lines with
  | nil =>
    intro n i raw e hi
    simp at hi
  | cons l rest ih =>
    intro n i raw e hi herr
    cases i with
    | zero =>
      simp only [List.getElem?_cons_zero, Option.some.injEq] at hi
      subst hi
      rw [Nat.add_zero] at herr
      rw [procErrs, herr]
      simp
    | succ j =>
      simp only [List.getElem?_cons_succ] at hi
      rw [procErrs]
      have hrec := ih (n + 1) j raw e hi (by rw [show n + 1 + j = n + (j + 1) from by omega]; exact herr)
      simp [hrec]

theorem procTbl_not_mem (v : String) (lines : List String) :
    ∀ (tbl : List (String × String)) (k : String),
    validateKeyStatic k v "gxt" = false → tbl.lookup k = none →
    (procTbl v tbl lines).lookup k = none := by
  induction lines with
  | nil =>
    intro tbl k _ h
    exact h
  | cons raw rest ih =>
    intro tbl k hval h
    rw [procTbl]
    apply ih _ k hval
    simp only [applyLine]
    by_cases hc : pyStrip raw ≠ "" ∧ hasEq (pyStrip raw) = true ∧
        validateKeyStatic (pyStrip (splitEq1 (pyStrip raw)).1) v "gxt" = true ∧
        pyStrip (splitEq1 (pyStrip raw)).1 ≠ ""
    · rw [if_pos hc]
      have hne : k ≠ pyStrip (splitEq1 (pyStrip raw)).1 := by
        intro he
        rw [← he] at hc
        rw [hc.2.2.1] at hval
        simp at hval
      rw [assocSet_lookup_ne k _ hne]
      exact h
    · rw [if_neg hc]
      exact h

theorem procTbl_preserves (v : String) (lines : List String) :
    ∀ (tbl : List (String × String)) (k : String),
    (tbl.lookup k).isSome = true →
    ((procTbl v tbl lines).lookup k).isSome = true := by
  induction lines with
  | nil =>
    intro tbl k h
    exact h
  | cons raw rest ih =>
    intro tbl k h
    rw [procTbl]
    apply ih
    simp only [applyLine]
    by_cases hc : pyStrip raw ≠ "" ∧ hasEq (pyStrip raw) = true ∧
        validateKeyStatic (pyStrip (splitEq1 (pyStrip raw)).1) v "gxt" = true ∧
        pyStrip (splitEq1 (pyStrip raw)).1 ≠ ""
    · rw [if_pos hc]
      exact assocSet_lookup_isSome k _ _ tbl h
    · rw [if_neg hc]
      exact h

theorem procTbl_mem (v : String) (lines : List String) :
    ∀ (tbl : List (String × String)) (raw : String),
    raw ∈ lines →
    hasEq (pyStrip raw) = true →
    validateKeyStatic (pyStrip (splitEq1 (pyStrip raw)).1) v "gxt" = true →
    pyStrip (splitEq1 (pyStrip raw)).1 ≠ "" →
    ((procTbl v tbl lines).lookup (pyStrip (splitEq1 (pyStrip raw)).1)).isSome = true := by
  induction lines with
  | nil =>
    intro tbl raw h
    simp at h
  | cons l rest ih =>
    intro tbl raw hmem hq hval hk
    rcases List.mem_cons.mp hmem with he | hm
    · subst he
      rw [procTbl]
      apply procTbl_preserves
      simp only [applyLine]
      rw [if_pos ⟨hasEq_ne_empty _ hq, hq, hval, hk⟩]
      rw [assocSet_lookup_self]
      rfl
    · rw [procTbl]
      exact ih _ raw hm hq hval hk

theorem loadStandardTxt_single (v fp : String) (lines : List String) :
    loadStandardTxt false v [(fp, lines)] =
      some ([("MAIN", procTbl v [] lines)], procErrs v fp 1 lines) := by
  simp only [loadStandardTxt, List.foldlM, Bool.false_eq_true, if_false]
  rw [loadLines_main v fp lines [] [] 1]
  simp

/-! ## Claim theorems: the interchange loader -/

/-- C5 counterexample: with table headers enabled, a `key=value` line before
any table header is silently skipped — its invalid key `BAD KEY` is not
reported in the returned error collection, which stays empty. -/
theorem c5_invalid_key_counterexample :
    loadStandardTxt true "III" [("f", ["BAD KEY=x"])] = some ([], []) ∧
    hasEq (pyStrip "BAD KEY=x") = true ∧
    validateKeyStatic (pyStrip (splitEq1 (pyStrip "BAD KEY=x")).1) "III" "gxt" = false := by
  refine ⟨?_, ?_, ?_⟩
  · rfl
  · decide
  · decide

/-- C5 (amended): in single-table mode, a `key=value` line whose stripped
key fails the dialect's rule is reported in the returned error collection as
`(key, 1-indexed line number, file path, message)` and the key is excluded
from the returned archive, while parsing continues and any `key=value` line
with a valid nonempty key elsewhere in the input still parses into the
`MAIN` table. -/
theorem c5_invalid_key_collected (v fp : String) (lines : List String)
    (i : Nat) (raw : String)
    (hi : lines[i]? = some raw)
    (heq : hasEq (pyStrip raw) = true)
    (hbad : validateKeyStatic (pyStrip (splitEq1 (pyStrip raw)).1) v "gxt" = false)
    (j : Nat) (raw' : String)
    (hj : lines[j]? = some raw')
    (heq' : hasEq (pyStrip raw') = true)
    (hgood : validateKeyStatic (pyStrip (splitEq1 (pyStrip raw')).1) v "gxt" = true)
    (hke : pyStrip (splitEq1 (pyStrip raw')).1 ≠ "") :
    (loadStandardTxt false v [(fp, lines)]).isSome = true ∧
    (pyStrip (splitEq1 (pyStrip raw)).1, i + 1, fp, getKeyValidationMessage v "gxt")
      ∈ resErrs (loadStandardTxt false v [(fp, lines)]) ∧
    (resMain (loadStandardTxt false v [(fp, lines)])).lookup
      (pyStrip (splitEq1 (pyStrip raw)).1) = none ∧
    ((resMain (loadStandardTxt false v [(fp, lines)])).lookup
      (pyStrip (splitEq1 (pyStrip raw')).1)).isSome = true := by
  rw [loadStandardTxt_single v fp lines]
  have hmain : resMain (some ([("MAIN", procTbl v [] lines)], procErrs v fp 1 lines)) =
      procTbl v [] lines := by
    simp [resMain, List.lookup]
  rw [hmain]
  refine ⟨rfl, ?_, ?_, ?_⟩
  · have herr : lineErr v fp (1 + i) raw =
        some (pyStrip (splitEq1 (pyStrip raw)).1, 1 + i, fp,
          getKeyValidationMessage v "gxt") := by
      simp only [lineErr]
      rw [if_pos ⟨hasEq_ne_empty _ heq, heq, hbad⟩]
    have hmem := procErrs_mem v fp lines 1 i raw _ hi herr
    rw [show 1 + i = i + 1 from by omega] at hmem
    simpa [resErrs] using hmem
  · exact procTbl_not_mem v lines [] _ hbad (by simp [List.lookup])
  · exact procTbl_mem v lines [] raw' (mem_of_getElem_eq lines j raw' hj) heq' hgood hke

/-- C5 witness: the file `["K=1", "!!=2"]` for the plain-7 dialect — line 2's
key `!!` is reported at line number 2 with the dialect message and excluded,
line 1's key `K` still parses. -/
theorem c5_invalid_key_collected_witness :
    (loadStandardTxt false "III" [("f", ["K=1", "!!=2"])]).isSome = true ∧
    ("!!", 2, "f", getKeyValidationMessage "III" "gxt")
      ∈ resErrs (loadStandardTxt false "III" [("f", ["K=1", "!!=2"])]) ∧
    (resMain (loadStandardTxt false "III" [("f", ["K=1", "!!=2"])])).lookup "!!" = none ∧
    ((resMain (loadStandardTxt false "III" [("f", ["K=1", "!!=2"])])).lookup "K").isSome
      = true :=
  c5_invalid_key_collected "III" "f" ["K=1", "!!=2"] 1 "!!=2" (by decide) (by decide)
    (by decide) 0 "K=1" (by decide) (by decide) (by decide) (by decide)

/-- C8 helper: a non-blank, non-header line without `=` leaves the state
unchanged (it is silently skipped). -/
theorem processLine_skip (ht : Bool) (v fp : String) (st : LoadState) (n : Nat)
    (raw : String)
    (hnh : (ht && lineIsHeader (pyStrip raw)) = false)
    (hnoeq : hasEq (pyStrip raw) = false) :
    processLine ht v fp st n raw = some st := by
  simp only [processLine]
  by_cases h0 : pyStrip raw = ""
  · simp [h0]
  · cases hc : st.current <;> simp [h0, hnh, hnoeq, hc]

/-- C8 helper: an empty line leaves the state unchanged. -/
theorem processLine_empty (ht : Bool) (v fp : String) (st : LoadState) (n : Nat) :
    processLine ht v fp st n "" = some st := by
  have h : pyStrip "" = "" := rfl
  simp [processLine, h]

theorem loadLinesFrom_set (ht : Bool) (v fp : String) (lines : List String) :
    ∀ (st : LoadState) (n i : Nat) (raw : String),
    lines[i]? = some raw →
    (ht && lineIsHeader (pyStrip raw)) = false →
    hasEq (pyStrip raw) = false →
    loadLinesFrom ht v fp st n lines = loadLinesFrom ht v fp st n (lines.set i "") := by
  induction lines with
  | nil =>
    intro st n i raw hi
    simp at hi
  | cons l rest ih =>
    intro st n i raw hi hnh hnoeq
    cases i with
    | zero =>
      simp only [List.getElem?_cons_zero, Option.some.injEq] at hi
      subst hi
      rw [show (l :: rest).set 0 "" = "" :: rest from by simp]
      rw [show loadLinesFrom ht v fp st n (l :: rest) =
        (processLine ht v fp st n l).bind
          (fun st2 => loadLinesFrom ht v fp st2 (n + 1) rest) from rfl]
      rw [show loadLinesFrom ht v fp st n ("" :: rest) =
        (processLine ht v fp st n "").bind
          (fun st2 => loadLinesFrom ht v fp st2 (n + 1) rest) from rfl]
      rw [processLine_skip ht v fp st n l hnh hnoeq, processLine_empty]
    | succ j =>
      simp only [List.getElem?_cons_succ] at hi
      rw [show (l :: rest).set (j + 1) "" = l :: rest.set j "" from by simp]
      rw [show loadLinesFrom ht v fp st n (l :: rest) =
        (processLine ht v fp st n l).bind
          (fun st2 => loadLinesFrom ht v fp st2 (n + 1) rest) from rfl]
      rw [show loadLinesFrom ht v fp st n (l :: rest.set j "") =
        (processLine ht v fp st n l).bind
          (fun st2 => loadLinesFrom ht v fp st2 (n + 1) (rest.set j "")) from rfl]
      cases hp : processLine ht v fp st n l with
      | none => rfl
      | some st2 => simpa using ih st2 (n + 1) j raw hi hnh hnoeq

/-- C8 counterexample: the non-blank line `HELLO` has no `=`; the loader
returns an empty error collection — no "missing separator" error is
reported. -/
theorem c8_missing_separator_counterexample :
    loadStandardTxt false "III" [("f", ["HELLO"])] = some ([("MAIN", [])], []) ∧
    pyStrip "HELLO" ≠ "" ∧
    hasEq (pyStrip "HELLO") = false := by
  refine ⟨?_, ?_, ?_⟩
  · rfl
  · decide
  · decide

/-- C8 (amended): a non-blank, non-header interchange line lacking `=` is
silently skipped by `_load_standard_txt`: replacing it with a blank line
changes neither the returned archive nor the returned error collection (the
standalone `load_txt_items` only prints a console warning for such a line
and likewise returns no error record). -/
theorem c8_missing_separator_skipped (ht : Bool) (v fp : String) (lines : List String)
    (i : Nat) (raw : String)
    (hi : lines[i]? = some raw)
    (hnh : (ht && lineIsHeader (pyStrip raw)) = false)
    (hnoeq : hasEq (pyStrip raw) = false) :
    loadStandardTxt ht v [(fp, lines)] = loadStandardTxt ht v [(fp, lines.set i "")] := by
  simp only [loadStandardTxt]
  rw [show (List.foldlM (fun st f => loadLinesFrom ht v f.1 st 1 f.2)
      { data := if ht = true then [] else [("MAIN", [])]
        invalid := []
        current := if ht = true then none else some "MAIN" } [(fp, lines)] : Option LoadState) =
    loadLinesFrom ht v fp
      { data := if ht = true then [] else [("MAIN", [])]
        invalid := []
        current := if ht = true then none else some "MAIN" } 1 lines from by
      simp [List.foldlM]]
  rw [show (List.foldlM (fun st f => loadLinesFrom ht v f.1 st 1 f.2)
      { data := if ht = true then [] else [("MAIN", [])]
        invalid := []
        current := if ht = true then none else some "MAIN" } [(fp, lines.set i "")] : Option LoadState) =
    loadLinesFrom ht v fp
      { data := if ht = true then [] else [("MAIN", [])]
        invalid := []
        current := if ht = true then none else some "MAIN" } 1 (lines.set i "") from by
      simp [List.foldlM]]
  rw [loadLinesFrom_set ht v fp lines _ 1 i raw hi hnh hnoeq]

/-- C8 witness: deleting the separator-less line `HELLO` (replacing it by a
blank line) leaves the loader's result unchanged. -/
theorem c8_missing_separator_skipped_witness :
    loadStandardTxt false "III" [("f", ["A=1", "HELLO", "B=2"])] =
      loadStandardTxt false "III" [("f", (["A=1", "HELLO", "B=2"].set 1 ""))] :=
  c8_missing_separator_skipped false "III" "f" ["A=1", "HELLO", "B=2"] 1 "HELLO"
    (by decide) (by decide) (by decide)

end GXT
